import Mathlib

/-!
# UART driver interface (`COTS/02-MCAL/09-UART/UART_interface.h`)

A shallow embedding of the UART driver interface: the five configuration
enumerations, the bit-field structure `UART_Config_t`, and the three operations
declared by the header (`UART_voidInit`, `UART_voidSendData`,
`UART_u8ReceiveData`).

The header declares the operations but holds no function body; the bodies are
modelled from the specification and every such definition says so in its doc
comment.
-/

namespace UART

/-! ## Enumerations (header lines 47-133)

A C enumeration without explicit initialisers numbers its enumerators 0, 1, 2, ...
in declaration order; `code` is that number. -/

/-- The parity modes, `UART_Parity_t` (header lines 47-52). -/
inductive UART_Parity_t where
  | UART_PARITY_NONE
  | UART_PARITY_EVEN
  | UART_PARITY_ODD
deriving DecidableEq, Repr, Fintype

/-- The stop-bit modes, `UART_StopBits_t` (header lines 61-67). -/
inductive UART_StopBits_t where
  | UART_STOP_BITS_1
  | UART_STOP_BITS_2
  | UART_STOP_BITS_0_5
  | UART_STOP_BITS_1_5
deriving DecidableEq, Repr, Fintype

/-- The data word lengths, `UART_DataBits_t` (header lines 76-80). -/
inductive UART_DataBits_t where
  | UART_WORD_LENGTH_8BIT
  | UART_WORD_LENGTH_9BIT
deriving DecidableEq, Repr, Fintype

/-- The baud rate options, `UART_BaudRate_t` (header lines 91-97). -/
inductive UART_BaudRate_t where
  | BAUD_RATE_9600
  | BAUD_RATE_115200
  | BAUD_RATE_57600
  | BAUD_RATE_38400
deriving DecidableEq, Repr, Fintype

/-- The hardware flow control options, `UART_HW_FlowControl_t` (header lines 127-133). -/
inductive UART_HW_FlowControl_t where
  | UART_HW_FLOW_CONTROL_NONE
  | UART_HW_FLOW_CONTROL_RTS
  | UART_HW_FLOW_CONTROL_CTS
  | UART_HW_FLOW_CONTROL_RTS_CTS
deriving DecidableEq, Repr, Fintype

open UART_Parity_t UART_StopBits_t UART_DataBits_t UART_BaudRate_t UART_HW_FlowControl_t

/-- Integer value of a `UART_Parity_t` enumerator. -/
def UART_Parity_t.code : UART_Parity_t → Nat
  | UART_PARITY_NONE => 0
  | UART_PARITY_EVEN => 1
  | UART_PARITY_ODD => 2

/-- Integer value of a `UART_StopBits_t` enumerator. -/
def UART_StopBits_t.code : UART_StopBits_t → Nat
  | UART_STOP_BITS_1 => 0
  | UART_STOP_BITS_2 => 1
  | UART_STOP_BITS_0_5 => 2
  | UART_STOP_BITS_1_5 => 3

/-- Integer value of a `UART_DataBits_t` enumerator. -/
def UART_DataBits_t.code : UART_DataBits_t → Nat
  | UART_WORD_LENGTH_8BIT => 0
  | UART_WORD_LENGTH_9BIT => 1

/-- Integer value of a `UART_BaudRate_t` enumerator. -/
def UART_BaudRate_t.code : UART_BaudRate_t → Nat
  | BAUD_RATE_9600 => 0
  | BAUD_RATE_115200 => 1
  | BAUD_RATE_57600 => 2
  | BAUD_RATE_38400 => 3

/-- Integer value of a `UART_HW_FlowControl_t` enumerator. -/
def UART_HW_FlowControl_t.code : UART_HW_FlowControl_t → Nat
  | UART_HW_FLOW_CONTROL_NONE => 0
  | UART_HW_FLOW_CONTROL_RTS => 1
  | UART_HW_FLOW_CONTROL_CTS => 2
  | UART_HW_FLOW_CONTROL_RTS_CTS => 3

/-- The baud rate, in bits per second, that an enumerator stands for
(documentation comments of header lines 93-96). -/
def UART_BaudRate_t.baud : UART_BaudRate_t → Nat
  | BAUD_RATE_9600 => 9600
  | BAUD_RATE_115200 => 115200
  | BAUD_RATE_57600 => 57600
  | BAUD_RATE_38400 => 38400

/-! ## The configuration structure (header lines 135-142)

Each member is an unsigned bit-field; a bit-field of width `w` stores exactly the
values `0 .. 2^w - 1`, which is `Fin (2^w)`. Assigning an integer to an unsigned
bit-field reduces it modulo `2^w`. -/

/-- The structure `UART_Config_t`: four 2-bit fields and one 1-bit field. -/
structure UART_Config_t where
  HwFlowControl : Fin 4
  ParityMode : Fin 4
  BaudRate : Fin 4
  StopBits : Fin 4
  WordLength : Fin 2
deriving DecidableEq, Repr, Fintype

/-- Declared widths of the five bit-fields, in declaration order. -/
def UART_Config_t.fieldWidths : List Nat := [2, 2, 2, 2, 1]

/-- Conversion of an integer to an unsigned bit-field of width 2. -/
def toBits2 (v : Nat) : Fin 4 := ⟨v % 4, Nat.mod_lt v (by decide)⟩

/-- Conversion of an integer to an unsigned bit-field of width 1. -/
def toBits1 (v : Nat) : Fin 2 := ⟨v % 2, Nat.mod_lt v (by decide)⟩

/-- The assignment `c.HwFlowControl = v`. -/
def UART_Config_t.setHwFlowControl (c : UART_Config_t) (v : Nat) : UART_Config_t :=
  { c with HwFlowControl := toBits2 v }

/-- The assignment `c.ParityMode = v`. -/
def UART_Config_t.setParityMode (c : UART_Config_t) (v : Nat) : UART_Config_t :=
  { c with ParityMode := toBits2 v }

/-- The assignment `c.BaudRate = v`. -/
def UART_Config_t.setBaudRate (c : UART_Config_t) (v : Nat) : UART_Config_t :=
  { c with BaudRate := toBits2 v }

/-- The assignment `c.StopBits = v`. -/
def UART_Config_t.setStopBits (c : UART_Config_t) (v : Nat) : UART_Config_t :=
  { c with StopBits := toBits2 v }

/-- The assignment `c.WordLength = v`. -/
def UART_Config_t.setWordLength (c : UART_Config_t) (v : Nat) : UART_Config_t :=
  { c with WordLength := toBits1 v }

/-- The stored `HwFlowControl` pattern is the value of an enumerator of `UART_HW_FlowControl_t`. -/
def UART_Config_t.HwFlowControlEnumerated (c : UART_Config_t) : Prop :=
  ∃ e : UART_HW_FlowControl_t, e.code = c.HwFlowControl.val

/-- The stored `ParityMode` pattern is the value of an enumerator of `UART_Parity_t`. -/
def UART_Config_t.ParityModeEnumerated (c : UART_Config_t) : Prop :=
  ∃ e : UART_Parity_t, e.code = c.ParityMode.val

/-- The stored `BaudRate` pattern is the value of an enumerator of `UART_BaudRate_t`. -/
def UART_Config_t.BaudRateEnumerated (c : UART_Config_t) : Prop :=
  ∃ e : UART_BaudRate_t, e.code = c.BaudRate.val

/-- The stored `StopBits` pattern is the value of an enumerator of `UART_StopBits_t`. -/
def UART_Config_t.StopBitsEnumerated (c : UART_Config_t) : Prop :=
  ∃ e : UART_StopBits_t, e.code = c.StopBits.val

/-- The stored `WordLength` pattern is the value of an enumerator of `UART_DataBits_t`. -/
def UART_Config_t.WordLengthEnumerated (c : UART_Config_t) : Prop :=
  ∃ e : UART_DataBits_t, e.code = c.WordLength.val

/-- Every field of the configuration holds a value of its enumeration. -/
def UART_Config_t.Valid (c : UART_Config_t) : Prop :=
  c.HwFlowControlEnumerated ∧ c.ParityModeEnumerated ∧ c.BaudRateEnumerated ∧
    c.StopBitsEnumerated ∧ c.WordLengthEnumerated

instance (c : UART_Config_t) : Decidable c.HwFlowControlEnumerated := by
  unfold UART_Config_t.HwFlowControlEnumerated; infer_instance

instance (c : UART_Config_t) : Decidable c.ParityModeEnumerated := by
  unfold UART_Config_t.ParityModeEnumerated; infer_instance

instance (c : UART_Config_t) : Decidable c.BaudRateEnumerated := by
  unfold UART_Config_t.BaudRateEnumerated; infer_instance

instance (c : UART_Config_t) : Decidable c.StopBitsEnumerated := by
  unfold UART_Config_t.StopBitsEnumerated; infer_instance

instance (c : UART_Config_t) : Decidable c.WordLengthEnumerated := by
  unfold UART_Config_t.WordLengthEnumerated; infer_instance

instance (c : UART_Config_t) : Decidable c.Valid := by
  unfold UART_Config_t.Valid; infer_instance

/-- The configuration whose fields hold the given enumerators. -/
def mkConfig (h : UART_HW_FlowControl_t) (p : UART_Parity_t) (b : UART_BaudRate_t)
    (s : UART_StopBits_t) (w : UART_DataBits_t) : UART_Config_t :=
  { HwFlowControl := toBits2 h.code
    ParityMode := toBits2 p.code
    BaudRate := toBits2 b.code
    StopBits := toBits2 s.code
    WordLength := toBits1 w.code }

/-- A fully specified line configuration: one enumerator for each of the five fields. -/
abbrev LineConfiguration : Type :=
  UART_HW_FlowControl_t × UART_Parity_t × UART_BaudRate_t × UART_StopBits_t × UART_DataBits_t

/-- The stored form of a fully specified line configuration. -/
def LineConfiguration.toConfig (l : LineConfiguration) : UART_Config_t :=
  mkConfig l.1 l.2.1 l.2.2.1 l.2.2.2.1 l.2.2.2.2

/-- The pair (RTS enable, CTS enable) read off the two bits of a flow-control value. -/
def UART_HW_FlowControl_t.enables (e : UART_HW_FlowControl_t) : Bool × Bool :=
  (e.code.testBit 0, e.code.testBit 1)

/-! ## Decoding the stored bit patterns -/

/-- The enumerator of `UART_HW_FlowControl_t` with a given value, if any. -/
def UART_HW_FlowControl_t.ofCode : Nat → Option UART_HW_FlowControl_t
  | 0 => some UART_HW_FLOW_CONTROL_NONE
  | 1 => some UART_HW_FLOW_CONTROL_RTS
  | 2 => some UART_HW_FLOW_CONTROL_CTS
  | 3 => some UART_HW_FLOW_CONTROL_RTS_CTS
  | _ => none

/-- The enumerator of `UART_Parity_t` with a given value, if any. -/
def UART_Parity_t.ofCode : Nat → Option UART_Parity_t
  | 0 => some UART_PARITY_NONE
  | 1 => some UART_PARITY_EVEN
  | 2 => some UART_PARITY_ODD
  | _ => none

/-- The enumerator of `UART_BaudRate_t` with a given value, if any. -/
def UART_BaudRate_t.ofCode : Nat → Option UART_BaudRate_t
  | 0 => some BAUD_RATE_9600
  | 1 => some BAUD_RATE_115200
  | 2 => some BAUD_RATE_57600
  | 3 => some BAUD_RATE_38400
  | _ => none

/-- The enumerator of `UART_StopBits_t` with a given value, if any. -/
def UART_StopBits_t.ofCode : Nat → Option UART_StopBits_t
  | 0 => some UART_STOP_BITS_1
  | 1 => some UART_STOP_BITS_2
  | 2 => some UART_STOP_BITS_0_5
  | 3 => some UART_STOP_BITS_1_5
  | _ => none

/-- The enumerator of `UART_DataBits_t` with a given value, if any. -/
def UART_DataBits_t.ofCode : Nat → Option UART_DataBits_t
  | 0 => some UART_WORD_LENGTH_8BIT
  | 1 => some UART_WORD_LENGTH_9BIT
  | _ => none

/-! ## The register block and its layout

The header names the register block type `USART_RegDef_t` and the selector type
`USART_Selection_t` but declares neither, and it holds no function body. What
follows is modelled from the specification (sections 4.2 to 4.4). The
specification names the control bits but not their positions, gives no width for
the fields of the baud-rate register, and leaves the WordLength/ParityMode policy
to the implementer, so these are parameters of the model (`USART_Layout`). -/

/-- Modelled from the spec: the register block `USART_RegDef_t`, whose declaration
is not in the header. It holds the status register, the data register, the
baud-rate register and the control bits. The control registers are viewed as one
word `CR`; a bit of the k-th 32-bit control register sits at position `32 * k + bit`. -/
structure USART_RegDef_t where
  SR : Nat
  DR : Nat
  BRR : Nat
  CR : Nat
deriving DecidableEq, Repr

/-- Modelled from the spec: the positions of the bits that section 4.2 to 4.4 name,
which the header does not give. `M` is the data-bit-count control bit, `PCE` the
parity-enable bit, `PS` the parity-odd/even bit (set for odd), `STOP` the low bit of
the 2-bit stop-bit-select field, `RTSE` and `CTSE` the RTS-enable and CTS-enable bits,
`TE`, `RE` and `UE` the transmitter, receiver and peripheral enable bits, all in the
control word; `TXE` and `RXNE` are the transmit-data-register-empty and
receive-data-register-not-empty flags of the status register. The baud-rate register
holds an integer field of `mantBits` bits above a fractional field of `fracBits` bits.
`stopSel` is the translation of a stop-bit mode into the value of the
stop-bit-select field. `autoExtend` is the policy that section 4.2 leaves to the
implementer: `false` is "WordLength always literal", `true` is "WordLength
auto-extended when parity enabled". -/
structure USART_Layout where
  M : Nat
  PCE : Nat
  PS : Nat
  STOP : Nat
  RTSE : Nat
  CTSE : Nat
  TE : Nat
  RE : Nat
  UE : Nat
  TXE : Nat
  RXNE : Nat
  mantBits : Nat
  fracBits : Nat
  stopSel : UART_StopBits_t → Fin 4
  autoExtend : Bool

/-- The control bits of a layout occupy pairwise different positions and the four
stop-bit modes have four different stop-bit-select values. -/
def USART_Layout.WellFormed (L : USART_Layout) : Prop :=
  [L.M, L.PCE, L.PS, L.STOP, L.STOP + 1, L.RTSE, L.CTSE, L.TE, L.RE, L.UE].Nodup ∧
    Function.Injective L.stopSel

instance (L : USART_Layout) : Decidable L.WellFormed := by
  unfold USART_Layout.WellFormed; infer_instance

/-- An instance of the layout: the bit positions of the STM32F10x USART, with the
control registers CR1, CR2, CR3 at word offsets 0, 32 and 64, a 12-bit integer and a
4-bit fractional divisor field, and the policy "WordLength always literal". -/
def stm32Layout : USART_Layout :=
  { M := 12, PCE := 10, PS := 9, STOP := 32 + 12, RTSE := 64 + 8, CTSE := 64 + 9,
    TE := 3, RE := 2, UE := 13, TXE := 7, RXNE := 5, mantBits := 12, fracBits := 4,
    stopSel := fun s =>
      match s with
      | UART_STOP_BITS_1 => 0
      | UART_STOP_BITS_0_5 => 1
      | UART_STOP_BITS_2 => 2
      | UART_STOP_BITS_1_5 => 3
    autoExtend := false }

/-- The layout `stm32Layout` with the policy "WordLength auto-extended when parity
enabled". -/
def stm32LayoutAutoExtend : USART_Layout := { stm32Layout with autoExtend := true }

/-- The layout `stm32Layout` with the data-bit-count bit moved onto the position of
the parity-enable bit; it is not well formed. -/
def overlappingLayout : USART_Layout := { stm32Layout with M := 10 }

/-- The word with only bit `i` set, `1 << i`. -/
def bitAt (i : Nat) : Nat := 1 <<< i

/-- Clearing the bits of `mask` in `reg`, `reg & ~mask`. -/
def clearMask (reg mask : Nat) : Nat := reg ^^^ (reg &&& mask)

/-- Writing a field: `(reg & ~mask) | val`. -/
def writeField (reg mask val : Nat) : Nat := clearMask reg mask ||| val

/-- Two words agree on every bit outside `mask`. -/
def sameOutside (mask x y : Nat) : Prop := clearMask x mask = clearMask y mask

instance (mask x y : Nat) : Decidable (sameOutside mask x y) := by
  unfold sameOutside; infer_instance

/-- Modelled from the spec: the bits of the control word that encode `WordLength`
(the data-bit-count control bit); the header gives no register layout. -/
def maskWordLength (L : USART_Layout) : Nat := bitAt L.M

/-- Modelled from the spec: the bits of the control word that encode `ParityMode`
(the parity-enable and parity-odd/even bits); the header gives no register layout. -/
def maskParity (L : USART_Layout) : Nat := bitAt L.PCE ||| bitAt L.PS

/-- Modelled from the spec: the bits of the control word that encode `StopBits`
(the 2-bit stop-bit-select field); the header gives no register layout. -/
def maskStop (L : USART_Layout) : Nat := 3 <<< L.STOP

/-- Modelled from the spec: the bits of the control word that encode `HwFlowControl`
(the RTS-enable and CTS-enable bits); the header gives no register layout. -/
def maskFlow (L : USART_Layout) : Nat := bitAt L.RTSE ||| bitAt L.CTSE

/-- Modelled from the spec: step 2 of section 4.2, which has no body in the header;
8-bit leaves the data-bit-count bit at its default (clear), 9-bit sets it. -/
def encWordLength (L : USART_Layout) : UART_DataBits_t → Nat
  | UART_WORD_LENGTH_8BIT => 0
  | UART_WORD_LENGTH_9BIT => bitAt L.M

/-- Modelled from the spec: the two policies of step 2 of section 4.2, which the
header does not resolve. Under "WordLength always literal" the frame format is the
configured word length; under "WordLength auto-extended when parity enabled" an
enabled parity selects the 9-bit frame format whatever the configured word length. -/
def effectiveWordLength (L : USART_Layout) (p : UART_Parity_t) (w : UART_DataBits_t) :
    UART_DataBits_t :=
  if L.autoExtend = true ∧ p ≠ UART_PARITY_NONE then UART_WORD_LENGTH_9BIT else w

/-- Modelled from the spec: step 3 of section 4.2, which has no body in the header;
the parity mode becomes the parity-enable and the parity-odd/even bits. -/
def encParity (L : USART_Layout) : UART_Parity_t → Nat
  | UART_PARITY_NONE => 0
  | UART_PARITY_EVEN => bitAt L.PCE
  | UART_PARITY_ODD => bitAt L.PCE ||| bitAt L.PS

/-- Modelled from the spec: step 4 of section 4.2, which has no body in the header;
the stop-bit mode becomes the value of the 2-bit stop-bit-select field. -/
def encStop (L : USART_Layout) (s : UART_StopBits_t) : Nat :=
  (L.stopSel s).val <<< L.STOP

/-- Modelled from the spec: step 5 of section 4.2, which has no body in the header;
RTS and CTS are enabled independently and the combined mode sets both. -/
def encFlow (L : USART_Layout) : UART_HW_FlowControl_t → Nat
  | UART_HW_FLOW_CONTROL_NONE => 0
  | UART_HW_FLOW_CONTROL_RTS => bitAt L.RTSE
  | UART_HW_FLOW_CONTROL_CTS => bitAt L.CTSE
  | UART_HW_FLOW_CONTROL_RTS_CTS => bitAt L.RTSE ||| bitAt L.CTSE

/-- Modelled from the spec: step 1 of section 4.2, which has no body in the header;
the baud-rate register value for peripheral clock `f` (in Hz) and baud rate `baud`:
`f / (16 * baud)` with `fracBits` fractional bits, rounded to the nearest (a tie
rounds up), before it is stored in the fields of the register. -/
def baudDivisor (fracBits f baud : Nat) : Nat :=
  (2 * (f * 2 ^ fracBits) + 16 * baud) / (2 * (16 * baud))

/-- The integer part of a baud-rate register value. -/
def divMantissa (fracBits d : Nat) : Nat := d / 2 ^ fracBits

/-- The fractional part of a baud-rate register value, in units of `2 ^ -fracBits`. -/
def divFraction (fracBits d : Nat) : Nat := d % 2 ^ fracBits

/-- The truncated quotient of `f / (16 * baud)` with `fracBits` fractional bits. -/
def truncDivisor (fracBits f baud : Nat) : Nat := (f * 2 ^ fracBits) / (16 * baud)

/-- Modelled from the spec: the value stored in the baud-rate register, "integer +
fractional divisor"; the integer part of the rounded divisor goes to the integer
field, reduced to the `mantBits` bits of that field, and the fractional part to the
fractional field below it. -/
def programmedDivisor (L : USART_Layout) (f baud : Nat) : Nat :=
  (divMantissa L.fracBits (baudDivisor L.fracBits f baud) % 2 ^ L.mantBits) * 2 ^ L.fracBits +
    divFraction L.fracBits (baudDivisor L.fracBits f baud)

/-- Distance between two natural numbers. -/
def absDiff (a b : Nat) : Nat := if a ≤ b then b - a else a - b

/-- Modelled from the spec: steps 2 to 6 of section 4.2 on the control word, which
have no body in the header; the four line-format fields are written, then the
transmitter and receiver enables are set, then the peripheral enable. `w` is the
frame format to encode. A field write replaces the bits of the field, so that the
bits are a function of the configuration alone, as section 8 asks of the encoding. -/
def initControl (L : USART_Layout) (w : UART_DataBits_t) (p : UART_Parity_t)
    (s : UART_StopBits_t) (h : UART_HW_FlowControl_t) (cr : Nat) : Nat :=
  let c2 := writeField cr (maskWordLength L) (encWordLength L w)
  let c3 := writeField c2 (maskParity L) (encParity L p)
  let c4 := writeField c3 (maskStop L) (encStop L s)
  let c5 := writeField c4 (maskFlow L) (encFlow L h)
  let c6 := (c5 ||| bitAt L.TE) ||| bitAt L.RE
  c6 ||| bitAt L.UE

/-- Modelled from the spec: `UART_voidInit`, declared at header line 236 without a
body, following the six steps of section 4.2 for a register layout `L` and a
peripheral clock of `f` Hz. A configuration with a field outside its enumeration is
a precondition violation with undefined behaviour, modelled as `none`. -/
def UART_voidInit (L : USART_Layout) (f : Nat) (Copy_psUSART : USART_RegDef_t)
    (config : UART_Config_t) : Option USART_RegDef_t := do
  let b ← UART_BaudRate_t.ofCode config.BaudRate.val
  let w ← UART_DataBits_t.ofCode config.WordLength.val
  let p ← UART_Parity_t.ofCode config.ParityMode.val
  let s ← UART_StopBits_t.ofCode config.StopBits.val
  let h ← UART_HW_FlowControl_t.ofCode config.HwFlowControl.val
  some { Copy_psUSART with
    BRR := programmedDivisor L f b.baud
    CR := initControl L (effectiveWordLength L p w) p s h Copy_psUSART.CR }

/-- Reading `WordLength` back from the control word through its own mask. -/
def readWordLength (L : USART_Layout) (cr : Nat) : Option UART_DataBits_t :=
  [UART_WORD_LENGTH_8BIT, UART_WORD_LENGTH_9BIT].find?
    (fun w => cr &&& maskWordLength L = encWordLength L w)

/-- Reading `ParityMode` back from the control word through its own mask. -/
def readParity (L : USART_Layout) (cr : Nat) : Option UART_Parity_t :=
  [UART_PARITY_NONE, UART_PARITY_EVEN, UART_PARITY_ODD].find?
    (fun p => cr &&& maskParity L = encParity L p)

/-- Reading `StopBits` back from the control word through its own mask. -/
def readStop (L : USART_Layout) (cr : Nat) : Option UART_StopBits_t :=
  [UART_STOP_BITS_1, UART_STOP_BITS_2, UART_STOP_BITS_0_5, UART_STOP_BITS_1_5].find?
    (fun s => cr &&& maskStop L = encStop L s)

/-- Reading `HwFlowControl` back from the control word through its own mask. -/
def readFlow (L : USART_Layout) (cr : Nat) : Option UART_HW_FlowControl_t :=
  [UART_HW_FLOW_CONTROL_NONE, UART_HW_FLOW_CONTROL_RTS, UART_HW_FLOW_CONTROL_CTS,
    UART_HW_FLOW_CONTROL_RTS_CTS].find? (fun h => cr &&& maskFlow L = encFlow L h)

/-- Reading `BaudRate` back from the baud-rate register, for a clock of `f` Hz: the
first enumerator whose register value is the one found. -/
def readBaud (L : USART_Layout) (f : Nat) (brr : Nat) : Option UART_BaudRate_t :=
  [BAUD_RATE_9600, BAUD_RATE_115200, BAUD_RATE_57600, BAUD_RATE_38400].find?
    (fun b => brr = programmedDivisor L f b.baud)

/-! ## Transmit and receive -/

/-- Modelled from the spec: the type `u8` of the two prototypes (header lines 247 and
256), whose typedef is not in the header; the specification calls the payload an
8-bit value, so `u8` is the unsigned 8-bit integer type, and converting an integer to
it reduces the integer modulo 256. -/
def u8 (w : Int) : Nat := (w % 256).toNat

/-- Modelled from the spec: the busy-poll on a single status flag of sections 4.3
and 4.4, which has no body in the header; the index of the first poll, from poll `n`
on, at which the flag is set, and `none` when it is not set within `fuel` polls. -/
def waitFlag (flag : Nat → Bool) : Nat → Nat → Option Nat
  | 0, _ => none
  | fuel + 1, n => if flag n then some n else waitFlag flag fuel (n + 1)

/-- Modelled from the spec: `UART_voidSendData`, declared at header line 247 without
a body, following section 4.3: wait until the transmit-data-register-empty flag is
set, then write the byte into the data register. `sr n` is the value of the status
register at the n-th poll and `w` the integer passed as the argument `data`, which
the parameter type `u8` converts. -/
def UART_voidSendData (L : USART_Layout) (sr : Nat → Nat) (fuel : Nat)
    (blk : USART_RegDef_t) (w : Int) : Option USART_RegDef_t :=
  let data := u8 w
  match waitFlag (fun n => (sr n).testBit L.TXE) fuel 0 with
  | none => none
  | some n => some { blk with SR := sr n, DR := data }

/-- Modelled from the spec: `UART_u8ReceiveData`, declared at header line 256 without
a body, following section 4.4: wait until the receive-data-register-not-empty flag is
set, then read the data register and return it as a `u8`. -/
def UART_u8ReceiveData (L : USART_Layout) (sr : Nat → Nat) (fuel : Nat)
    (blk : USART_RegDef_t) : Option Nat :=
  match waitFlag (fun n => (sr n).testBit L.RXNE) fuel 0 with
  | none => none
  | some _ => some (u8 (blk.DR : Int))

/-! ## The stored values of the enumerators -/

theorem flow_code_injective : Function.Injective UART_HW_FlowControl_t.code := by
  intro a b h; cases a <;> cases b <;> first | rfl | cases h

theorem parity_code_injective : Function.Injective UART_Parity_t.code := by
  intro a b h; cases a <;> cases b <;> first | rfl | cases h

theorem baud_code_injective : Function.Injective UART_BaudRate_t.code := by
  intro a b h; cases a <;> cases b <;> first | rfl | cases h

theorem stop_code_injective : Function.Injective UART_StopBits_t.code := by
  intro a b h; cases a <;> cases b <;> first | rfl | cases h

theorem databits_code_injective : Function.Injective UART_DataBits_t.code := by
  intro a b h; cases a <;> cases b <;> first | rfl | cases h

theorem flow_code_lt (e : UART_HW_FlowControl_t) : e.code < 4 := by cases e <;> decide
theorem parity_code_lt (e : UART_Parity_t) : e.code < 3 := by cases e <;> decide
theorem baud_code_lt (e : UART_BaudRate_t) : e.code < 4 := by cases e <;> decide
theorem stop_code_lt (e : UART_StopBits_t) : e.code < 4 := by cases e <;> decide
theorem databits_code_lt (e : UART_DataBits_t) : e.code < 2 := by cases e <;> decide

theorem toBits2_val_of_lt {v : Nat} (h : v < 4) : (toBits2 v).val = v := Nat.mod_eq_of_lt h
theorem toBits1_val_of_lt {v : Nat} (h : v < 2) : (toBits1 v).val = v := Nat.mod_eq_of_lt h

theorem toConfig_injective : Function.Injective LineConfiguration.toConfig := by
  rintro ⟨a, b, c, d, e⟩ ⟨a2, b2, c2, d2, e2⟩ h
  simp only [LineConfiguration.toConfig, mkConfig, UART_Config_t.mk.injEq, Fin.ext_iff] at h
  obtain ⟨h1, h2, h3, h4, h5⟩ := h
  rw [toBits2_val_of_lt (flow_code_lt a), toBits2_val_of_lt (flow_code_lt a2)] at h1
  rw [toBits2_val_of_lt (Nat.lt_succ_of_lt (parity_code_lt b)),
    toBits2_val_of_lt (Nat.lt_succ_of_lt (parity_code_lt b2))] at h2
  rw [toBits2_val_of_lt (baud_code_lt c), toBits2_val_of_lt (baud_code_lt c2)] at h3
  rw [toBits2_val_of_lt (stop_code_lt d), toBits2_val_of_lt (stop_code_lt d2)] at h4
  rw [toBits1_val_of_lt (databits_code_lt e), toBits1_val_of_lt (databits_code_lt e2)] at h5
  rw [flow_code_injective h1, parity_code_injective h2, baud_code_injective h3,
    stop_code_injective h4, databits_code_injective h5]

theorem valid_iff_parity_ne_three (c : UART_Config_t) : c.Valid ↔ c.ParityMode ≠ 3 := by
  obtain ⟨h, p, b, s, w⟩ := c
  fin_cases h <;> fin_cases p <;> fin_cases b <;> fin_cases s <;> fin_cases w <;> decide

theorem toConfig_valid (l : LineConfiguration) : l.toConfig.Valid := by
  obtain ⟨a, b, c, d, e⟩ := l
  rw [valid_iff_parity_ne_three]
  cases b <;> (simp only [LineConfiguration.toConfig, mkConfig]; decide)

theorem valid_iff_exists_toConfig (c : UART_Config_t) :
    c.Valid ↔ ∃ l : LineConfiguration, l.toConfig = c := by
  constructor
  · rintro ⟨⟨a, ha⟩, ⟨b, hb⟩, ⟨d, hd⟩, ⟨s, hs⟩, ⟨w, hw⟩⟩
    refine ⟨(a, b, d, s, w), ?_⟩
    obtain ⟨f1, f2, f3, f4, f5⟩ := c
    simp only [LineConfiguration.toConfig, mkConfig, UART_Config_t.mk.injEq, Fin.ext_iff]
    simp only [toBits2, toBits1] 
    simp only at ha hb hd hs hw
    rw [ha, hb, hd, hs, hw]
    refine ⟨Nat.mod_eq_of_lt f1.isLt, Nat.mod_eq_of_lt f2.isLt, Nat.mod_eq_of_lt f3.isLt,
      Nat.mod_eq_of_lt f4.isLt, Nat.mod_eq_of_lt f5.isLt⟩
  · rintro ⟨l, rfl⟩
    exact toConfig_valid l

theorem card_lineConfiguration : Fintype.card LineConfiguration = 384 := by
  simp only [Fintype.card_prod]; rfl

theorem card_valid : (Finset.univ.filter (fun c : UART_Config_t => c.Valid)).card = 384 := by
  have h : Finset.univ.filter (fun c : UART_Config_t => c.Valid)
      = Finset.univ.image LineConfiguration.toConfig := by
    ext c
    simp only [Finset.mem_filter, Finset.mem_univ, true_and, Finset.mem_image]
    exact valid_iff_exists_toConfig c
  rw [h, Finset.card_image_of_injective _ toConfig_injective, Finset.card_univ,
    card_lineConfiguration]

/-! ## Bitwise lemmas -/

theorem testBit_bitAt (i j : Nat) : (bitAt i).testBit j = decide (i = j) := by
  simp [bitAt, Nat.one_shiftLeft, Nat.testBit_two_pow]

theorem testBit_and_eq_zero {m n : Nat} (h : m &&& n = 0) (i : Nat) :
    (m.testBit i && n.testBit i) = false := by
  rw [← Nat.testBit_and, h, Nat.zero_testBit]

theorem and_writeField_self (r m v : Nat) : writeField r m v &&& m = v &&& m := by
  apply Nat.eq_of_testBit_eq; intro i
  simp only [writeField, clearMask, Nat.testBit_and, Nat.testBit_or, Nat.testBit_xor]
  cases r.testBit i <;> cases m.testBit i <;> cases v.testBit i <;> rfl

theorem and_writeField_of_disjoint {m v n : Nat} (r : Nat) (hm : m &&& n = 0)
    (hv : v &&& n = 0) : writeField r m v &&& n = r &&& n := by
  apply Nat.eq_of_testBit_eq; intro i
  have h1 := testBit_and_eq_zero hm i
  have h2 := testBit_and_eq_zero hv i
  simp only [writeField, clearMask, Nat.testBit_and, Nat.testBit_or, Nat.testBit_xor]
  revert h1 h2
  cases r.testBit i <;> cases m.testBit i <;> cases v.testBit i <;> cases n.testBit i <;> simp

theorem and_or_of_disjoint {e n : Nat} (r : Nat) (he : e &&& n = 0) :
    (r ||| e) &&& n = r &&& n := by
  apply Nat.eq_of_testBit_eq; intro i
  have h1 := testBit_and_eq_zero he i
  simp only [Nat.testBit_and, Nat.testBit_or]
  revert h1
  cases r.testBit i <;> cases e.testBit i <;> cases n.testBit i <;> simp

theorem and_eq_zero_of_subset {v m n : Nat} (hv : v &&& m = v) (hm : m &&& n = 0) :
    v &&& n = 0 := by
  rw [← hv, Nat.and_assoc, hm, Nat.and_zero]

theorem and_comm_eq_zero {m n : Nat} (h : m &&& n = 0) : n &&& m = 0 := by
  rw [Nat.and_comm]; exact h

theorem or_and_eq_zero {a b n : Nat} (ha : a &&& n = 0) (hb : b &&& n = 0) :
    (a ||| b) &&& n = 0 := by
  apply Nat.eq_of_testBit_eq; intro i
  have h1 := testBit_and_eq_zero ha i
  have h2 := testBit_and_eq_zero hb i
  simp only [Nat.testBit_and, Nat.testBit_or, Nat.zero_testBit]
  revert h1 h2
  cases a.testBit i <;> cases b.testBit i <;> cases n.testBit i <;> simp

theorem bitAt_and_bitAt {i j : Nat} (h : i ≠ j) : bitAt i &&& bitAt j = 0 := by
  apply Nat.eq_of_testBit_eq; intro k
  simp only [Nat.testBit_and, testBit_bitAt, Nat.zero_testBit]
  by_cases h1 : i = k
  · subst h1; simp [Ne.symm h]
  · simp [h1]

theorem bitAt_ne_zero (i : Nat) : bitAt i ≠ 0 := by
  simp [bitAt, Nat.one_shiftLeft]

theorem bitAt_injective : Function.Injective bitAt := by
  intro i j h
  have := testBit_bitAt i j
  rw [h, testBit_bitAt] at this
  simpa using this.symm

theorem three_shiftLeft (s : Nat) : 3 <<< s = bitAt s ||| bitAt (s + 1) := by
  apply Nat.eq_of_testBit_eq; intro k
  simp only [Nat.testBit_or, testBit_bitAt, Nat.testBit_shiftLeft]
  by_cases h : s ≤ k
  · obtain ⟨d, rfl⟩ := Nat.exists_eq_add_of_le h
    simp only [Nat.add_sub_cancel_left]
    match d with
    | 0 => simp
    | 1 =>
      have h3 : Nat.testBit 3 1 = true := by decide
      simp [h3]
    | d + 2 =>
      have h3 : (3 : Nat).testBit (d + 2) = false :=
        Nat.testBit_lt_two_pow (by
          calc 3 < 2 ^ 2 := by decide
          _ ≤ 2 ^ (d + 2) := Nat.pow_le_pow_right (by decide) (by omega))
      have h1 : ¬ s = s + (d + 2) := by omega
      have h2 : ¬ s + 1 = s + (d + 2) := by omega
      simp [h3, h1, h2]
  · have h1 : ¬ s = k := by omega
    have h2 : ¬ s + 1 = k := by omega
    simp [h, h1, h2]

theorem fin4_and_three (v : Fin 4) : v.val &&& 3 = v.val := by
  fin_cases v <;> decide

theorem shiftLeft_and_maskStop (v : Fin 4) (s : Nat) : (v.val <<< s) &&& (3 <<< s) = v.val <<< s := by
  apply Nat.eq_of_testBit_eq; intro k
  have h := congrArg (fun x => Nat.testBit x (k - s)) (fin4_and_three v)
  simp only [Nat.testBit_and] at h
  simp only [Nat.testBit_and, Nat.testBit_shiftLeft]
  revert h
  cases decide (k ≥ s) <;> cases v.val.testBit (k - s) <;> cases Nat.testBit 3 (k - s) <;> simp

theorem shiftLeft_left_injective (s : Nat) {a b : Nat} (h : a <<< s = b <<< s) : a = b := by
  rw [Nat.shiftLeft_eq, Nat.shiftLeft_eq] at h
  exact Nat.eq_of_mul_eq_mul_right (Nat.pos_pow_of_pos s (by decide)) h

/-! ## The masks of a well-formed layout do not overlap -/

set_option linter.unusedTactic false
set_option linter.unreachableTactic false

theorem bitAt_and_bitAt_iff (i j : Nat) : bitAt i &&& bitAt j = 0 ↔ i ≠ j := by
  constructor
  · rintro h rfl
    rw [Nat.and_self] at h
    exact bitAt_ne_zero i h
  · exact bitAt_and_bitAt

theorem or_and_eq_zero_iff (a b n : Nat) : (a ||| b) &&& n = 0 ↔ a &&& n = 0 ∧ b &&& n = 0 := by
  constructor
  · intro h
    constructor
    · apply Nat.eq_of_testBit_eq; intro i
      have h1 := testBit_and_eq_zero h i
      simp only [Nat.testBit_or] at h1
      simp only [Nat.testBit_and, Nat.zero_testBit]
      revert h1
      cases a.testBit i <;> cases b.testBit i <;> cases n.testBit i <;> simp
    · apply Nat.eq_of_testBit_eq; intro i
      have h1 := testBit_and_eq_zero h i
      simp only [Nat.testBit_or] at h1
      simp only [Nat.testBit_and, Nat.zero_testBit]
      revert h1
      cases a.testBit i <;> cases b.testBit i <;> cases n.testBit i <;> simp
  · rintro ⟨ha, hb⟩
    exact or_and_eq_zero ha hb

theorem and_or_eq_zero_iff (n a b : Nat) : n &&& (a ||| b) = 0 ↔ n &&& a = 0 ∧ n &&& b = 0 := by
  rw [Nat.and_comm, or_and_eq_zero_iff, Nat.and_comm a, Nat.and_comm b]

theorem wellFormed_distinct {L : USART_Layout} (hL : L.WellFormed) :
    (L.M ≠ L.PCE ∧ L.M ≠ L.PS ∧ L.M ≠ L.STOP ∧ L.M ≠ L.STOP + 1 ∧ L.M ≠ L.RTSE ∧ L.M ≠ L.CTSE ∧
      L.M ≠ L.TE ∧ L.M ≠ L.RE ∧ L.M ≠ L.UE) ∧
    (L.PCE ≠ L.PS ∧ L.PCE ≠ L.STOP ∧ L.PCE ≠ L.STOP + 1 ∧ L.PCE ≠ L.RTSE ∧ L.PCE ≠ L.CTSE ∧
      L.PCE ≠ L.TE ∧ L.PCE ≠ L.RE ∧ L.PCE ≠ L.UE) ∧
    (L.PS ≠ L.STOP ∧ L.PS ≠ L.STOP + 1 ∧ L.PS ≠ L.RTSE ∧ L.PS ≠ L.CTSE ∧
      L.PS ≠ L.TE ∧ L.PS ≠ L.RE ∧ L.PS ≠ L.UE) ∧
    (L.STOP ≠ L.RTSE ∧ L.STOP ≠ L.CTSE ∧ L.STOP ≠ L.TE ∧ L.STOP ≠ L.RE ∧ L.STOP ≠ L.UE) ∧
    (L.STOP + 1 ≠ L.RTSE ∧ L.STOP + 1 ≠ L.CTSE ∧ L.STOP + 1 ≠ L.TE ∧ L.STOP + 1 ≠ L.RE ∧
      L.STOP + 1 ≠ L.UE) ∧
    (L.RTSE ≠ L.CTSE ∧ L.RTSE ≠ L.TE ∧ L.RTSE ≠ L.RE ∧ L.RTSE ≠ L.UE) ∧
    (L.CTSE ≠ L.TE ∧ L.CTSE ≠ L.RE ∧ L.CTSE ≠ L.UE) := by
  have hd := hL.1
  simp only [List.nodup_cons, List.mem_cons, List.mem_singleton, not_or, List.not_mem_nil,
    not_false_eq_true, List.nodup_nil, and_true] at hd
  obtain ⟨h1, h2, h3, h4, h5, h6, h7, _⟩ := hd
  refine ⟨?_, ?_, ?_, ?_, ?_, ?_, ?_⟩
  · simpa [and_assoc] using h1
  · simpa [and_assoc] using h2
  · simpa [and_assoc] using h3
  · obtain ⟨_, a, b, c, d, e⟩ := h4
    exact ⟨a, b, c, d, e⟩
  · simpa [and_assoc] using h5
  · simpa [and_assoc] using h6
  · obtain ⟨a, b, c⟩ := h7
    exact ⟨a, b, c⟩

theorem wordLength_and_parity {L : USART_Layout} (hL : L.WellFormed) :
    maskWordLength L &&& maskParity L = 0 := by
  obtain ⟨⟨_, _, _, _, _, _, _, _, _⟩, ⟨_, _, _, _, _, _, _, _⟩, ⟨_, _, _, _, _, _, _⟩,
    ⟨_, _, _, _, _⟩, ⟨_, _, _, _, _⟩, ⟨_, _, _, _⟩, ⟨_, _, _⟩⟩ := wellFormed_distinct hL
  simp only [maskWordLength, maskParity, maskStop, maskFlow, three_shiftLeft, or_and_eq_zero_iff,
    and_or_eq_zero_iff, bitAt_and_bitAt_iff]
  repeat' apply And.intro
  all_goals first | assumption | exact Ne.symm ‹_›

theorem wordLength_and_stop {L : USART_Layout} (hL : L.WellFormed) :
    maskWordLength L &&& maskStop L = 0 := by
  obtain ⟨⟨_, _, _, _, _, _, _, _, _⟩, ⟨_, _, _, _, _, _, _, _⟩, ⟨_, _, _, _, _, _, _⟩,
    ⟨_, _, _, _, _⟩, ⟨_, _, _, _, _⟩, ⟨_, _, _, _⟩, ⟨_, _, _⟩⟩ := wellFormed_distinct hL
  simp only [maskWordLength, maskParity, maskStop, maskFlow, three_shiftLeft, or_and_eq_zero_iff,
    and_or_eq_zero_iff, bitAt_and_bitAt_iff]
  repeat' apply And.intro
  all_goals first | assumption | exact Ne.symm ‹_›

theorem wordLength_and_flow {L : USART_Layout} (hL : L.WellFormed) :
    maskWordLength L &&& maskFlow L = 0 := by
  obtain ⟨⟨_, _, _, _, _, _, _, _, _⟩, ⟨_, _, _, _, _, _, _, _⟩, ⟨_, _, _, _, _, _, _⟩,
    ⟨_, _, _, _, _⟩, ⟨_, _, _, _, _⟩, ⟨_, _, _, _⟩, ⟨_, _, _⟩⟩ := wellFormed_distinct hL
  simp only [maskWordLength, maskParity, maskStop, maskFlow, three_shiftLeft, or_and_eq_zero_iff,
    and_or_eq_zero_iff, bitAt_and_bitAt_iff]
  repeat' apply And.intro
  all_goals first | assumption | exact Ne.symm ‹_›

theorem parity_and_wordLength {L : USART_Layout} (hL : L.WellFormed) :
    maskParity L &&& maskWordLength L = 0 := by
  obtain ⟨⟨_, _, _, _, _, _, _, _, _⟩, ⟨_, _, _, _, _, _, _, _⟩, ⟨_, _, _, _, _, _, _⟩,
    ⟨_, _, _, _, _⟩, ⟨_, _, _, _, _⟩, ⟨_, _, _, _⟩, ⟨_, _, _⟩⟩ := wellFormed_distinct hL
  simp only [maskWordLength, maskParity, maskStop, maskFlow, three_shiftLeft, or_and_eq_zero_iff,
    and_or_eq_zero_iff, bitAt_and_bitAt_iff]
  repeat' apply And.intro
  all_goals first | assumption | exact Ne.symm ‹_›

theorem parity_and_stop {L : USART_Layout} (hL : L.WellFormed) :
    maskParity L &&& maskStop L = 0 := by
  obtain ⟨⟨_, _, _, _, _, _, _, _, _⟩, ⟨_, _, _, _, _, _, _, _⟩, ⟨_, _, _, _, _, _, _⟩,
    ⟨_, _, _, _, _⟩, ⟨_, _, _, _, _⟩, ⟨_, _, _, _⟩, ⟨_, _, _⟩⟩ := wellFormed_distinct hL
  simp only [maskWordLength, maskParity, maskStop, maskFlow, three_shiftLeft, or_and_eq_zero_iff,
    and_or_eq_zero_iff, bitAt_and_bitAt_iff]
  repeat' apply And.intro
  all_goals first | assumption | exact Ne.symm ‹_›

theorem parity_and_flow {L : USART_Layout} (hL : L.WellFormed) :
    maskParity L &&& maskFlow L = 0 := by
  obtain ⟨⟨_, _, _, _, _, _, _, _, _⟩, ⟨_, _, _, _, _, _, _, _⟩, ⟨_, _, _, _, _, _, _⟩,
    ⟨_, _, _, _, _⟩, ⟨_, _, _, _, _⟩, ⟨_, _, _, _⟩, ⟨_, _, _⟩⟩ := wellFormed_distinct hL
  simp only [maskWordLength, maskParity, maskStop, maskFlow, three_shiftLeft, or_and_eq_zero_iff,
    and_or_eq_zero_iff, bitAt_and_bitAt_iff]
  repeat' apply And.intro
  all_goals first | assumption | exact Ne.symm ‹_›

theorem stop_and_wordLength {L : USART_Layout} (hL : L.WellFormed) :
    maskStop L &&& maskWordLength L = 0 := by
  obtain ⟨⟨_, _, _, _, _, _, _, _, _⟩, ⟨_, _, _, _, _, _, _, _⟩, ⟨_, _, _, _, _, _, _⟩,
    ⟨_, _, _, _, _⟩, ⟨_, _, _, _, _⟩, ⟨_, _, _, _⟩, ⟨_, _, _⟩⟩ := wellFormed_distinct hL
  simp only [maskWordLength, maskParity, maskStop, maskFlow, three_shiftLeft, or_and_eq_zero_iff,
    and_or_eq_zero_iff, bitAt_and_bitAt_iff]
  repeat' apply And.intro
  all_goals first | assumption | exact Ne.symm ‹_›

theorem stop_and_parity {L : USART_Layout} (hL : L.WellFormed) :
    maskStop L &&& maskParity L = 0 := by
  obtain ⟨⟨_, _, _, _, _, _, _, _, _⟩, ⟨_, _, _, _, _, _, _, _⟩, ⟨_, _, _, _, _, _, _⟩,
    ⟨_, _, _, _, _⟩, ⟨_, _, _, _, _⟩, ⟨_, _, _, _⟩, ⟨_, _, _⟩⟩ := wellFormed_distinct hL
  simp only [maskWordLength, maskParity, maskStop, maskFlow, three_shiftLeft, or_and_eq_zero_iff,
    and_or_eq_zero_iff, bitAt_and_bitAt_iff]
  repeat' apply And.intro
  all_goals first | assumption | exact Ne.symm ‹_›

theorem stop_and_flow {L : USART_Layout} (hL : L.WellFormed) :
    maskStop L &&& maskFlow L = 0 := by
  obtain ⟨⟨_, _, _, _, _, _, _, _, _⟩, ⟨_, _, _, _, _, _, _, _⟩, ⟨_, _, _, _, _, _, _⟩,
    ⟨_, _, _, _, _⟩, ⟨_, _, _, _, _⟩, ⟨_, _, _, _⟩, ⟨_, _, _⟩⟩ := wellFormed_distinct hL
  simp only [maskWordLength, maskParity, maskStop, maskFlow, three_shiftLeft, or_and_eq_zero_iff,
    and_or_eq_zero_iff, bitAt_and_bitAt_iff]
  repeat' apply And.intro
  all_goals first | assumption | exact Ne.symm ‹_›

theorem flow_and_wordLength {L : USART_Layout} (hL : L.WellFormed) :
    maskFlow L &&& maskWordLength L = 0 := by
  obtain ⟨⟨_, _, _, _, _, _, _, _, _⟩, ⟨_, _, _, _, _, _, _, _⟩, ⟨_, _, _, _, _, _, _⟩,
    ⟨_, _, _, _, _⟩, ⟨_, _, _, _, _⟩, ⟨_, _, _, _⟩, ⟨_, _, _⟩⟩ := wellFormed_distinct hL
  simp only [maskWordLength, maskParity, maskStop, maskFlow, three_shiftLeft, or_and_eq_zero_iff,
    and_or_eq_zero_iff, bitAt_and_bitAt_iff]
  repeat' apply And.intro
  all_goals first | assumption | exact Ne.symm ‹_›

theorem flow_and_parity {L : USART_Layout} (hL : L.WellFormed) :
    maskFlow L &&& maskParity L = 0 := by
  obtain ⟨⟨_, _, _, _, _, _, _, _, _⟩, ⟨_, _, _, _, _, _, _, _⟩, ⟨_, _, _, _, _, _, _⟩,
    ⟨_, _, _, _, _⟩, ⟨_, _, _, _, _⟩, ⟨_, _, _, _⟩, ⟨_, _, _⟩⟩ := wellFormed_distinct hL
  simp only [maskWordLength, maskParity, maskStop, maskFlow, three_shiftLeft, or_and_eq_zero_iff,
    and_or_eq_zero_iff, bitAt_and_bitAt_iff]
  repeat' apply And.intro
  all_goals first | assumption | exact Ne.symm ‹_›

theorem flow_and_stop {L : USART_Layout} (hL : L.WellFormed) :
    maskFlow L &&& maskStop L = 0 := by
  obtain ⟨⟨_, _, _, _, _, _, _, _, _⟩, ⟨_, _, _, _, _, _, _, _⟩, ⟨_, _, _, _, _, _, _⟩,
    ⟨_, _, _, _, _⟩, ⟨_, _, _, _, _⟩, ⟨_, _, _, _⟩, ⟨_, _, _⟩⟩ := wellFormed_distinct hL
  simp only [maskWordLength, maskParity, maskStop, maskFlow, three_shiftLeft, or_and_eq_zero_iff,
    and_or_eq_zero_iff, bitAt_and_bitAt_iff]
  repeat' apply And.intro
  all_goals first | assumption | exact Ne.symm ‹_›

theorem te_and_wordLength {L : USART_Layout} (hL : L.WellFormed) :
    bitAt L.TE &&& maskWordLength L = 0 := by
  obtain ⟨⟨_, _, _, _, _, _, _, _, _⟩, ⟨_, _, _, _, _, _, _, _⟩, ⟨_, _, _, _, _, _, _⟩,
    ⟨_, _, _, _, _⟩, ⟨_, _, _, _, _⟩, ⟨_, _, _, _⟩, ⟨_, _, _⟩⟩ := wellFormed_distinct hL
  simp only [maskWordLength, maskParity, maskStop, maskFlow, three_shiftLeft, or_and_eq_zero_iff,
    and_or_eq_zero_iff, bitAt_and_bitAt_iff]
  repeat' apply And.intro
  all_goals first | assumption | exact Ne.symm ‹_›

theorem te_and_parity {L : USART_Layout} (hL : L.WellFormed) :
    bitAt L.TE &&& maskParity L = 0 := by
  obtain ⟨⟨_, _, _, _, _, _, _, _, _⟩, ⟨_, _, _, _, _, _, _, _⟩, ⟨_, _, _, _, _, _, _⟩,
    ⟨_, _, _, _, _⟩, ⟨_, _, _, _, _⟩, ⟨_, _, _, _⟩, ⟨_, _, _⟩⟩ := wellFormed_distinct hL
  simp only [maskWordLength, maskParity, maskStop, maskFlow, three_shiftLeft, or_and_eq_zero_iff,
    and_or_eq_zero_iff, bitAt_and_bitAt_iff]
  repeat' apply And.intro
  all_goals first | assumption | exact Ne.symm ‹_›

theorem te_and_stop {L : USART_Layout} (hL : L.WellFormed) :
    bitAt L.TE &&& maskStop L = 0 := by
  obtain ⟨⟨_, _, _, _, _, _, _, _, _⟩, ⟨_, _, _, _, _, _, _, _⟩, ⟨_, _, _, _, _, _, _⟩,
    ⟨_, _, _, _, _⟩, ⟨_, _, _, _, _⟩, ⟨_, _, _, _⟩, ⟨_, _, _⟩⟩ := wellFormed_distinct hL
  simp only [maskWordLength, maskParity, maskStop, maskFlow, three_shiftLeft, or_and_eq_zero_iff,
    and_or_eq_zero_iff, bitAt_and_bitAt_iff]
  repeat' apply And.intro
  all_goals first | assumption | exact Ne.symm ‹_›

theorem te_and_flow {L : USART_Layout} (hL : L.WellFormed) :
    bitAt L.TE &&& maskFlow L = 0 := by
  obtain ⟨⟨_, _, _, _, _, _, _, _, _⟩, ⟨_, _, _, _, _, _, _, _⟩, ⟨_, _, _, _, _, _, _⟩,
    ⟨_, _, _, _, _⟩, ⟨_, _, _, _, _⟩, ⟨_, _, _, _⟩, ⟨_, _, _⟩⟩ := wellFormed_distinct hL
  simp only [maskWordLength, maskParity, maskStop, maskFlow, three_shiftLeft, or_and_eq_zero_iff,
    and_or_eq_zero_iff, bitAt_and_bitAt_iff]
  repeat' apply And.intro
  all_goals first | assumption | exact Ne.symm ‹_›

theorem re_and_wordLength {L : USART_Layout} (hL : L.WellFormed) :
    bitAt L.RE &&& maskWordLength L = 0 := by
  obtain ⟨⟨_, _, _, _, _, _, _, _, _⟩, ⟨_, _, _, _, _, _, _, _⟩, ⟨_, _, _, _, _, _, _⟩,
    ⟨_, _, _, _, _⟩, ⟨_, _, _, _, _⟩, ⟨_, _, _, _⟩, ⟨_, _, _⟩⟩ := wellFormed_distinct hL
  simp only [maskWordLength, maskParity, maskStop, maskFlow, three_shiftLeft, or_and_eq_zero_iff,
    and_or_eq_zero_iff, bitAt_and_bitAt_iff]
  repeat' apply And.intro
  all_goals first | assumption | exact Ne.symm ‹_›

theorem re_and_parity {L : USART_Layout} (hL : L.WellFormed) :
    bitAt L.RE &&& maskParity L = 0 := by
  obtain ⟨⟨_, _, _, _, _, _, _, _, _⟩, ⟨_, _, _, _, _, _, _, _⟩, ⟨_, _, _, _, _, _, _⟩,
    ⟨_, _, _, _, _⟩, ⟨_, _, _, _, _⟩, ⟨_, _, _, _⟩, ⟨_, _, _⟩⟩ := wellFormed_distinct hL
  simp only [maskWordLength, maskParity, maskStop, maskFlow, three_shiftLeft, or_and_eq_zero_iff,
    and_or_eq_zero_iff, bitAt_and_bitAt_iff]
  repeat' apply And.intro
  all_goals first | assumption | exact Ne.symm ‹_›

theorem re_and_stop {L : USART_Layout} (hL : L.WellFormed) :
    bitAt L.RE &&& maskStop L = 0 := by
  obtain ⟨⟨_, _, _, _, _, _, _, _, _⟩, ⟨_, _, _, _, _, _, _, _⟩, ⟨_, _, _, _, _, _, _⟩,
    ⟨_, _, _, _, _⟩, ⟨_, _, _, _, _⟩, ⟨_, _, _, _⟩, ⟨_, _, _⟩⟩ := wellFormed_distinct hL
  simp only [maskWordLength, maskParity, maskStop, maskFlow, three_shiftLeft, or_and_eq_zero_iff,
    and_or_eq_zero_iff, bitAt_and_bitAt_iff]
  repeat' apply And.intro
  all_goals first | assumption | exact Ne.symm ‹_›

theorem re_and_flow {L : USART_Layout} (hL : L.WellFormed) :
    bitAt L.RE &&& maskFlow L = 0 := by
  obtain ⟨⟨_, _, _, _, _, _, _, _, _⟩, ⟨_, _, _, _, _, _, _, _⟩, ⟨_, _, _, _, _, _, _⟩,
    ⟨_, _, _, _, _⟩, ⟨_, _, _, _, _⟩, ⟨_, _, _, _⟩, ⟨_, _, _⟩⟩ := wellFormed_distinct hL
  simp only [maskWordLength, maskParity, maskStop, maskFlow, three_shiftLeft, or_and_eq_zero_iff,
    and_or_eq_zero_iff, bitAt_and_bitAt_iff]
  repeat' apply And.intro
  all_goals first | assumption | exact Ne.symm ‹_›

theorem ue_and_wordLength {L : USART_Layout} (hL : L.WellFormed) :
    bitAt L.UE &&& maskWordLength L = 0 := by
  obtain ⟨⟨_, _, _, _, _, _, _, _, _⟩, ⟨_, _, _, _, _, _, _, _⟩, ⟨_, _, _, _, _, _, _⟩,
    ⟨_, _, _, _, _⟩, ⟨_, _, _, _, _⟩, ⟨_, _, _, _⟩, ⟨_, _, _⟩⟩ := wellFormed_distinct hL
  simp only [maskWordLength, maskParity, maskStop, maskFlow, three_shiftLeft, or_and_eq_zero_iff,
    and_or_eq_zero_iff, bitAt_and_bitAt_iff]
  repeat' apply And.intro
  all_goals first | assumption | exact Ne.symm ‹_›

theorem ue_and_parity {L : USART_Layout} (hL : L.WellFormed) :
    bitAt L.UE &&& maskParity L = 0 := by
  obtain ⟨⟨_, _, _, _, _, _, _, _, _⟩, ⟨_, _, _, _, _, _, _, _⟩, ⟨_, _, _, _, _, _, _⟩,
    ⟨_, _, _, _, _⟩, ⟨_, _, _, _, _⟩, ⟨_, _, _, _⟩, ⟨_, _, _⟩⟩ := wellFormed_distinct hL
  simp only [maskWordLength, maskParity, maskStop, maskFlow, three_shiftLeft, or_and_eq_zero_iff,
    and_or_eq_zero_iff, bitAt_and_bitAt_iff]
  repeat' apply And.intro
  all_goals first | assumption | exact Ne.symm ‹_›

theorem ue_and_stop {L : USART_Layout} (hL : L.WellFormed) :
    bitAt L.UE &&& maskStop L = 0 := by
  obtain ⟨⟨_, _, _, _, _, _, _, _, _⟩, ⟨_, _, _, _, _, _, _, _⟩, ⟨_, _, _, _, _, _, _⟩,
    ⟨_, _, _, _, _⟩, ⟨_, _, _, _, _⟩, ⟨_, _, _, _⟩, ⟨_, _, _⟩⟩ := wellFormed_distinct hL
  simp only [maskWordLength, maskParity, maskStop, maskFlow, three_shiftLeft, or_and_eq_zero_iff,
    and_or_eq_zero_iff, bitAt_and_bitAt_iff]
  repeat' apply And.intro
  all_goals first | assumption | exact Ne.symm ‹_›

theorem ue_and_flow {L : USART_Layout} (hL : L.WellFormed) :
    bitAt L.UE &&& maskFlow L = 0 := by
  obtain ⟨⟨_, _, _, _, _, _, _, _, _⟩, ⟨_, _, _, _, _, _, _, _⟩, ⟨_, _, _, _, _, _, _⟩,
    ⟨_, _, _, _, _⟩, ⟨_, _, _, _, _⟩, ⟨_, _, _, _⟩, ⟨_, _, _⟩⟩ := wellFormed_distinct hL
  simp only [maskWordLength, maskParity, maskStop, maskFlow, three_shiftLeft, or_and_eq_zero_iff,
    and_or_eq_zero_iff, bitAt_and_bitAt_iff]
  repeat' apply And.intro
  all_goals first | assumption | exact Ne.symm ‹_›

/-! ## Each encoding stays inside its own mask -/

theorem and_or_self_left (a b : Nat) : a &&& (a ||| b) = a := by
  apply Nat.eq_of_testBit_eq; intro i
  simp only [Nat.testBit_and, Nat.testBit_or]
  cases a.testBit i <;> cases b.testBit i <;> rfl

theorem and_or_self_right (a b : Nat) : b &&& (a ||| b) = b := by
  apply Nat.eq_of_testBit_eq; intro i
  simp only [Nat.testBit_and, Nat.testBit_or]
  cases a.testBit i <;> cases b.testBit i <;> rfl

theorem encWordLength_and_mask (L : USART_Layout) (w : UART_DataBits_t) :
    encWordLength L w &&& maskWordLength L = encWordLength L w := by
  cases w
  · exact Nat.zero_and _
  · exact Nat.and_self _

theorem encParity_and_mask (L : USART_Layout) (p : UART_Parity_t) :
    encParity L p &&& maskParity L = encParity L p := by
  cases p
  · exact Nat.zero_and _
  · exact and_or_self_left _ _
  · exact Nat.and_self _

theorem encStop_and_mask (L : USART_Layout) (s : UART_StopBits_t) :
    encStop L s &&& maskStop L = encStop L s :=
  shiftLeft_and_maskStop _ _

theorem encFlow_and_mask (L : USART_Layout) (h : UART_HW_FlowControl_t) :
    encFlow L h &&& maskFlow L = encFlow L h := by
  cases h
  · exact Nat.zero_and _
  · exact and_or_self_left _ _
  · exact and_or_self_right _ _
  · exact Nat.and_self _

/-! ## Each encoding determines its enumerator -/

theorem or_bitAt_ne_left {i j : Nat} (h : i ≠ j) : bitAt i ||| bitAt j ≠ bitAt i := by
  intro e
  have h1 := congrArg (fun x => Nat.testBit x j) e
  simp only [Nat.testBit_or, testBit_bitAt] at h1
  simp [h] at h1

theorem or_bitAt_ne_right {i j : Nat} (h : i ≠ j) : bitAt i ||| bitAt j ≠ bitAt j := by
  intro e
  have h1 := congrArg (fun x => Nat.testBit x i) e
  simp only [Nat.testBit_or, testBit_bitAt] at h1
  simp [Ne.symm h] at h1

theorem or_bitAt_ne_zero (i j : Nat) : bitAt i ||| bitAt j ≠ 0 := by
  intro e
  have h1 := congrArg (fun x => Nat.testBit x i) e
  simp only [Nat.testBit_or, testBit_bitAt] at h1
  simp at h1

theorem encWordLength_injective (L : USART_Layout) : Function.Injective (encWordLength L) := by
  intro a b h
  cases a <;> cases b <;> first
    | rfl
    | exact absurd h (bitAt_ne_zero _)
    | exact absurd h.symm (bitAt_ne_zero _)

theorem encParity_injective {L : USART_Layout} (hL : L.WellFormed) :
    Function.Injective (encParity L) := by
  have hne : L.PCE ≠ L.PS := (wellFormed_distinct hL).2.1.1
  intro a b h
  cases a <;> cases b <;> first
    | rfl
    | exact absurd h (bitAt_ne_zero _)
    | exact absurd h.symm (bitAt_ne_zero _)
    | exact absurd h (or_bitAt_ne_zero _ _)
    | exact absurd h.symm (or_bitAt_ne_zero _ _)
    | exact absurd h (or_bitAt_ne_left hne)
    | exact absurd h.symm (or_bitAt_ne_left hne)

theorem encStop_injective {L : USART_Layout} (hL : L.WellFormed) :
    Function.Injective (encStop L) := by
  intro a b h
  exact hL.2 (Fin.ext (shiftLeft_left_injective L.STOP h))

theorem encFlow_injective {L : USART_Layout} (hL : L.WellFormed) :
    Function.Injective (encFlow L) := by
  have hne : L.RTSE ≠ L.CTSE := (wellFormed_distinct hL).2.2.2.2.2.1.1
  intro a b h
  cases a <;> cases b <;> first
    | rfl
    | exact absurd h (bitAt_ne_zero _)
    | exact absurd h.symm (bitAt_ne_zero _)
    | exact absurd h (or_bitAt_ne_zero _ _)
    | exact absurd h.symm (or_bitAt_ne_zero _ _)
    | exact absurd h (or_bitAt_ne_left hne)
    | exact absurd h.symm (or_bitAt_ne_left hne)
    | exact absurd h (or_bitAt_ne_right hne)
    | exact absurd h.symm (or_bitAt_ne_right hne)
    | exact absurd (bitAt_injective h) hne
    | exact absurd (bitAt_injective h.symm) hne

/-! ## What `initControl` leaves under each mask -/

theorem initControl_and_maskWordLength {L : USART_Layout} (hL : L.WellFormed)
    (w : UART_DataBits_t) (p : UART_Parity_t) (s : UART_StopBits_t) (h : UART_HW_FlowControl_t)
    (cr : Nat) : initControl L w p s h cr &&& maskWordLength L = encWordLength L w := by
  unfold initControl
  simp only
  rw [and_or_of_disjoint _ (ue_and_wordLength hL), and_or_of_disjoint _ (re_and_wordLength hL),
    and_or_of_disjoint _ (te_and_wordLength hL),
    and_writeField_of_disjoint _ (flow_and_wordLength hL)
      (and_eq_zero_of_subset (encFlow_and_mask L h) (flow_and_wordLength hL)),
    and_writeField_of_disjoint _ (stop_and_wordLength hL)
      (and_eq_zero_of_subset (encStop_and_mask L s) (stop_and_wordLength hL)),
    and_writeField_of_disjoint _ (parity_and_wordLength hL)
      (and_eq_zero_of_subset (encParity_and_mask L p) (parity_and_wordLength hL)),
    and_writeField_self, encWordLength_and_mask]

theorem initControl_and_maskParity {L : USART_Layout} (hL : L.WellFormed)
    (w : UART_DataBits_t) (p : UART_Parity_t) (s : UART_StopBits_t) (h : UART_HW_FlowControl_t)
    (cr : Nat) : initControl L w p s h cr &&& maskParity L = encParity L p := by
  unfold initControl
  simp only
  rw [and_or_of_disjoint _ (ue_and_parity hL), and_or_of_disjoint _ (re_and_parity hL),
    and_or_of_disjoint _ (te_and_parity hL),
    and_writeField_of_disjoint _ (flow_and_parity hL)
      (and_eq_zero_of_subset (encFlow_and_mask L h) (flow_and_parity hL)),
    and_writeField_of_disjoint _ (stop_and_parity hL)
      (and_eq_zero_of_subset (encStop_and_mask L s) (stop_and_parity hL)),
    and_writeField_self, encParity_and_mask]

theorem initControl_and_maskStop {L : USART_Layout} (hL : L.WellFormed)
    (w : UART_DataBits_t) (p : UART_Parity_t) (s : UART_StopBits_t) (h : UART_HW_FlowControl_t)
    (cr : Nat) : initControl L w p s h cr &&& maskStop L = encStop L s := by
  unfold initControl
  simp only
  rw [and_or_of_disjoint _ (ue_and_stop hL), and_or_of_disjoint _ (re_and_stop hL),
    and_or_of_disjoint _ (te_and_stop hL),
    and_writeField_of_disjoint _ (flow_and_stop hL)
      (and_eq_zero_of_subset (encFlow_and_mask L h) (flow_and_stop hL)),
    and_writeField_self, encStop_and_mask]

theorem initControl_and_maskFlow {L : USART_Layout} (hL : L.WellFormed)
    (w : UART_DataBits_t) (p : UART_Parity_t) (s : UART_StopBits_t) (h : UART_HW_FlowControl_t)
    (cr : Nat) : initControl L w p s h cr &&& maskFlow L = encFlow L h := by
  unfold initControl
  simp only
  rw [and_or_of_disjoint _ (ue_and_flow hL), and_or_of_disjoint _ (re_and_flow hL),
    and_or_of_disjoint _ (te_and_flow hL), and_writeField_self, encFlow_and_mask]

/-! ## Decoding the fields of `mkConfig` -/

theorem UART_voidInit_mkConfig (L : USART_Layout) (f : Nat) (blk : USART_RegDef_t)
    (h : UART_HW_FlowControl_t) (p : UART_Parity_t) (b : UART_BaudRate_t)
    (s : UART_StopBits_t) (w : UART_DataBits_t) :
    UART_voidInit L f blk (mkConfig h p b s w) =
      some { blk with
        BRR := programmedDivisor L f b.baud
        CR := initControl L (effectiveWordLength L p w) p s h blk.CR } := by
  cases h <;> cases p <;> cases b <;> cases s <;> cases w <;> rfl

/-! ## Writes compose into one write -/

theorem writeField_writeField (r m1 v1 m2 v2 : Nat) :
    writeField (writeField r m1 v1) m2 v2 = writeField r (m1 ||| m2) (clearMask v1 m2 ||| v2) := by
  apply Nat.eq_of_testBit_eq; intro i
  simp only [writeField, clearMask, Nat.testBit_and, Nat.testBit_or, Nat.testBit_xor]
  cases r.testBit i <;> cases m1.testBit i <;> cases v1.testBit i <;> cases m2.testBit i <;>
    cases v2.testBit i <;> rfl

theorem writeField_or (r m v e : Nat) :
    writeField r m v ||| e = writeField r (m ||| e) (v ||| e) := by
  apply Nat.eq_of_testBit_eq; intro i
  simp only [writeField, clearMask, Nat.testBit_and, Nat.testBit_or, Nat.testBit_xor]
  cases r.testBit i <;> cases m.testBit i <;> cases v.testBit i <;> cases e.testBit i <;> rfl

theorem writeField_idem (r m v : Nat) : writeField (writeField r m v) m v = writeField r m v := by
  apply Nat.eq_of_testBit_eq; intro i
  simp only [writeField, clearMask, Nat.testBit_and, Nat.testBit_or, Nat.testBit_xor]
  cases r.testBit i <;> cases m.testBit i <;> cases v.testBit i <;> rfl

theorem initControl_eq_writeField (L : USART_Layout) (w : UART_DataBits_t) (p : UART_Parity_t)
    (s : UART_StopBits_t) (h : UART_HW_FlowControl_t) :
    ∃ m v, ∀ cr, initControl L w p s h cr = writeField cr m v := by
  refine ⟨maskWordLength L ||| (maskParity L ||| (maskStop L ||| maskFlow L)) ||| bitAt L.TE |||
      bitAt L.RE ||| bitAt L.UE,
    clearMask (encWordLength L w) (maskParity L ||| (maskStop L ||| maskFlow L)) |||
      (clearMask (encParity L p) (maskStop L ||| maskFlow L) |||
        (clearMask (encStop L s) (maskFlow L) ||| encFlow L h)) ||| bitAt L.TE ||| bitAt L.RE |||
      bitAt L.UE, fun cr => ?_⟩
  unfold initControl
  simp only
  rw [writeField_writeField, writeField_writeField, writeField_writeField, writeField_or,
    writeField_or, writeField_or]

theorem initControl_idem (L : USART_Layout) (w : UART_DataBits_t) (p : UART_Parity_t)
    (s : UART_StopBits_t) (h : UART_HW_FlowControl_t) (cr : Nat) :
    initControl L w p s h (initControl L w p s h cr) = initControl L w p s h cr := by
  obtain ⟨m, v, hg⟩ := initControl_eq_writeField L w p s h
  rw [hg, hg, writeField_idem]

/-! ## A write changes only the bits of its mask -/

theorem sameOutside_writeField_self {n v1 v2 : Nat} (r : Nat) (h1 : v1 &&& n = v1)
    (h2 : v2 &&& n = v2) : sameOutside n (writeField r n v1) (writeField r n v2) := by
  unfold sameOutside
  apply Nat.eq_of_testBit_eq; intro i
  have e1 := congrArg (fun x => Nat.testBit x i) h1
  have e2 := congrArg (fun x => Nat.testBit x i) h2
  simp only [Nat.testBit_and] at e1 e2
  simp only [writeField, clearMask, Nat.testBit_and, Nat.testBit_or, Nat.testBit_xor]
  revert e1 e2
  cases r.testBit i <;> cases n.testBit i <;> cases v1.testBit i <;> cases v2.testBit i <;> simp

theorem sameOutside_writeField {n x y : Nat} (m v : Nat) (h : sameOutside n x y) :
    sameOutside n (writeField x m v) (writeField y m v) := by
  unfold sameOutside at h ⊢
  apply Nat.eq_of_testBit_eq; intro i
  have e := congrArg (fun z => Nat.testBit z i) h
  simp only [clearMask, Nat.testBit_and, Nat.testBit_xor] at e
  simp only [writeField, clearMask, Nat.testBit_and, Nat.testBit_or, Nat.testBit_xor]
  revert e
  cases x.testBit i <;> cases y.testBit i <;> cases n.testBit i <;> cases m.testBit i <;>
    cases v.testBit i <;> simp

theorem sameOutside_or {n x y : Nat} (e : Nat) (h : sameOutside n x y) :
    sameOutside n (x ||| e) (y ||| e) := by
  unfold sameOutside at h ⊢
  apply Nat.eq_of_testBit_eq; intro i
  have e1 := congrArg (fun z => Nat.testBit z i) h
  simp only [clearMask, Nat.testBit_and, Nat.testBit_xor] at e1
  simp only [clearMask, Nat.testBit_and, Nat.testBit_or, Nat.testBit_xor]
  revert e1
  cases x.testBit i <;> cases y.testBit i <;> cases n.testBit i <;> cases e.testBit i <;> simp

theorem initControl_frame_wordLength (L : USART_Layout) (w w2 : UART_DataBits_t)
    (p : UART_Parity_t) (s : UART_StopBits_t) (h : UART_HW_FlowControl_t) (cr : Nat) :
    sameOutside (maskWordLength L) (initControl L w p s h cr) (initControl L w2 p s h cr) := by
  unfold initControl
  simp only
  exact sameOutside_or _ (sameOutside_or _ (sameOutside_or _ (sameOutside_writeField _ _
    (sameOutside_writeField _ _ (sameOutside_writeField _ _
      (sameOutside_writeField_self cr (encWordLength_and_mask L w)
        (encWordLength_and_mask L w2)))))))

theorem initControl_frame_parity (L : USART_Layout) (w : UART_DataBits_t)
    (p p2 : UART_Parity_t) (s : UART_StopBits_t) (h : UART_HW_FlowControl_t) (cr : Nat) :
    sameOutside (maskParity L) (initControl L w p s h cr) (initControl L w p2 s h cr) := by
  unfold initControl
  simp only
  exact sameOutside_or _ (sameOutside_or _ (sameOutside_or _ (sameOutside_writeField _ _
    (sameOutside_writeField _ _
      (sameOutside_writeField_self _ (encParity_and_mask L p) (encParity_and_mask L p2))))))

theorem initControl_frame_stop (L : USART_Layout) (w : UART_DataBits_t)
    (p : UART_Parity_t) (s s2 : UART_StopBits_t) (h : UART_HW_FlowControl_t) (cr : Nat) :
    sameOutside (maskStop L) (initControl L w p s h cr) (initControl L w p s2 h cr) := by
  unfold initControl
  simp only
  exact sameOutside_or _ (sameOutside_or _ (sameOutside_or _ (sameOutside_writeField _ _
    (sameOutside_writeField_self _ (encStop_and_mask L s) (encStop_and_mask L s2)))))

theorem initControl_frame_flow (L : USART_Layout) (w : UART_DataBits_t)
    (p : UART_Parity_t) (s : UART_StopBits_t) (h h2 : UART_HW_FlowControl_t) (cr : Nat) :
    sameOutside (maskFlow L) (initControl L w p s h cr) (initControl L w p s h2 cr) := by
  unfold initControl
  simp only
  exact sameOutside_or _ (sameOutside_or _ (sameOutside_or _
    (sameOutside_writeField_self _ (encFlow_and_mask L h) (encFlow_and_mask L h2))))

/-! ## The baud-rate divisor -/

theorem le_mul_two_pow (f k : Nat) : f ≤ f * 2 ^ k :=
  Nat.le_mul_of_pos_right f (Nat.pos_pow_of_pos k (by decide))

theorem baudDivisor_injective (k f : Nat) (hf : 16 * 115200 ≤ f) :
    Function.Injective (fun b : UART_BaudRate_t => baudDivisor k f b.baud) := by
  intro a b h
  have hN := le_mul_two_pow f k
  simp only [baudDivisor] at h
  generalize f * 2 ^ k = N at h hN
  cases a <;> cases b <;> first
    | rfl
    | (exfalso; simp only [UART_BaudRate_t.baud] at h; omega)

theorem baudDivisor_nearest (k f : Nat) (b : UART_BaudRate_t) (n : Nat) :
    absDiff (baudDivisor k f b.baud * (16 * b.baud)) (f * 2 ^ k) ≤
      absDiff (n * (16 * b.baud)) (f * 2 ^ k) := by
  simp only [baudDivisor, absDiff]
  generalize f * 2 ^ k = N
  cases b <;> simp only [UART_BaudRate_t.baud] <;> split_ifs <;> omega

theorem baudDivisor_eq_trunc (k f : Nat) (b : UART_BaudRate_t) :
    baudDivisor k f b.baud = truncDivisor k f b.baud +
      (if 16 * b.baud ≤ 2 * ((f * 2 ^ k) % (16 * b.baud)) then 1 else 0) := by
  simp only [baudDivisor, truncDivisor]
  generalize f * 2 ^ k = N
  cases b <;> simp only [UART_BaudRate_t.baud] <;> split_ifs <;> omega

theorem baudDivisor_rounds_up_example :
    baudDivisor 4 8000000 57600 = 139 ∧ truncDivisor 4 8000000 57600 = 138 := by
  decide

/-! ## Reading the fields back -/

theorem find?_eq_some_of_injective {α : Type} (enc : α → Nat) (henc : Function.Injective enc)
    (a : α) : ∀ l : List α, a ∈ l → l.find? (fun x => decide (enc a = enc x)) = some a := by
  intro l
  induction l with
  | nil => intro h; cases h
  | cons x xs ih =>
    intro h
    by_cases hx : enc a = enc x
    · have : x = a := (henc hx).symm
      simp [List.find?_cons, hx, this]
    · have hne : a ≠ x := fun e => hx (congrArg enc e)
      have hmem : a ∈ xs := by
        rcases List.mem_cons.mp h with h1 | h1
        · exact absurd h1 hne
        · exact h1
      simp [List.find?_cons, hx, ih hmem]

/-! ## The busy-poll returns once the flag is set -/

theorem waitFlag_of_flag (flag : Nat → Bool) :
    ∀ (fuel n k : Nat), n ≤ k → k < n + fuel → flag k = true →
      ∃ j, waitFlag flag fuel n = some j ∧ j ≤ k ∧ flag j = true := by
  intro fuel
  induction fuel with
  | zero => intro n k h1 h2 _; omega
  | succ fuel ih =>
    intro n k h1 h2 hk
    by_cases hn : flag n = true
    · exact ⟨n, by simp [waitFlag, hn], h1, hn⟩
    · have hnk : n ≠ k := fun e => hn (e ▸ hk)
      obtain ⟨j, hj, hjk, hfj⟩ := ih (n + 1) k (by omega) (by omega) hk
      exact ⟨j, by simp [waitFlag, hn, hj], hjk, hfj⟩

theorem u8_lt (w : Int) : u8 w < 256 := by
  unfold u8
  omega

theorem u8_cast (w : Int) : (u8 w : Int) = w % 2 ^ 8 := by
  unfold u8
  omega

theorem UART_voidSendData_of_wait (L : USART_Layout) (sr : Nat → Nat) (fuel : Nat)
    (blk : USART_RegDef_t) (w : Int) {j : Nat}
    (hj : waitFlag (fun n => (sr n).testBit L.TXE) fuel 0 = some j) :
    UART_voidSendData L sr fuel blk w = some { blk with SR := sr j, DR := u8 w } := by
  simp only [UART_voidSendData, hj]

theorem UART_u8ReceiveData_of_wait (L : USART_Layout) (sr : Nat → Nat) (fuel : Nat)
    (blk : USART_RegDef_t) {j : Nat}
    (hj : waitFlag (fun n => (sr n).testBit L.RXNE) fuel 0 = some j) :
    UART_u8ReceiveData L sr fuel blk = some (u8 (blk.DR : Int)) := by
  simp only [UART_u8ReceiveData, hj]

/-! ## The configuration structure: claims C4 to C8 and C10 -/

/-- C4, counterexample: the pattern 3 can be stored in the 2-bit field `ParityMode`,
by the assignment `c.ParityMode = 3`, and it is the value of no enumerator of
`UART_Parity_t`; so a value of the structure exists that has a field outside its
enumeration. -/
theorem config_parity_three_not_enumerated :
    ((UART_Config_t.mk 0 0 0 0 0).setParityMode 3).ParityMode = 3 ∧
      ¬ ((UART_Config_t.mk 0 0 0 0 0).setParityMode 3).ParityModeEnumerated ∧
      ¬ ((UART_Config_t.mk 0 0 0 0 0).setParityMode 3).Valid := by
  decide

/-- C4, amended: every value of `UART_Config_t` whose `ParityMode` field is not the
pattern 3 holds, in each of its five fields, a value of that field's enumeration. -/
theorem config_valid_of_parity_ne_three (c : UART_Config_t) (hp : c.ParityMode ≠ 3) :
    c.HwFlowControlEnumerated ∧ c.ParityModeEnumerated ∧ c.BaudRateEnumerated ∧
      c.StopBitsEnumerated ∧ c.WordLengthEnumerated :=
  (valid_iff_parity_ne_three c).mpr hp

/-- Witness of `config_valid_of_parity_ne_three` at the configuration with fields
0, 2, 0, 0, 0. -/
theorem config_valid_of_parity_ne_three_witness :
    (UART_Config_t.mk 0 2 0 0 0).ParityMode ≠ 3 ∧
      (UART_Config_t.mk 0 2 0 0 0).HwFlowControlEnumerated ∧
      (UART_Config_t.mk 0 2 0 0 0).ParityModeEnumerated ∧
      (UART_Config_t.mk 0 2 0 0 0).BaudRateEnumerated ∧
      (UART_Config_t.mk 0 2 0 0 0).StopBitsEnumerated ∧
      (UART_Config_t.mk 0 2 0 0 0).WordLengthEnumerated :=
  ⟨by decide, config_valid_of_parity_ne_three (UART_Config_t.mk 0 2 0 0 0) (by decide)⟩

/-- C5, counterexample: `UART_HW_FlowControl_t` has four enumerators, not two, and
the number of fully specified line configurations is not 192. -/
theorem lineConfiguration_count_ne_192 :
    Fintype.card UART_HW_FlowControl_t ≠ 2 ∧
      Fintype.card UART_HW_FlowControl_t * Fintype.card UART_Parity_t *
        Fintype.card UART_BaudRate_t * Fintype.card UART_StopBits_t *
        Fintype.card UART_DataBits_t ≠ 192 ∧
      Fintype.card LineConfiguration ≠ 192 := by
  refine ⟨by decide, by decide, ?_⟩
  rw [card_lineConfiguration]
  decide

/-- C5, amended: the five enumerations have 4, 3, 4, 4 and 2 enumerators, so the
number of fully specified line configurations is 4 * 3 * 4 * 4 * 2 = 384; this is
also the number of values of `UART_Config_t` whose fields all hold enumerated
values. -/
theorem lineConfiguration_count :
    Fintype.card UART_HW_FlowControl_t = 4 ∧ Fintype.card UART_Parity_t = 3 ∧
      Fintype.card UART_BaudRate_t = 4 ∧ Fintype.card UART_StopBits_t = 4 ∧
      Fintype.card UART_DataBits_t = 2 ∧
      Fintype.card LineConfiguration = 4 * 3 * 4 * 4 * 2 ∧
      Fintype.card LineConfiguration = 384 ∧
      (Finset.univ.filter (fun c : UART_Config_t => c.Valid)).card = 384 :=
  ⟨by decide, by decide, by decide, by decide, by decide, card_lineConfiguration,
    card_lineConfiguration, card_valid⟩

/-- C6: for each field of `UART_Config_t` and each enumerator `e` of its enumeration,
storing `e` in the bit-field and reading it back returns `e`, distinct enumerators
read back as distinct values, and the five widths 2, 2, 2, 2, 1 add up to 9 bits. -/
theorem enumerators_fit_bitfields (c : UART_Config_t) :
    ((∀ e : UART_HW_FlowControl_t, (c.setHwFlowControl e.code).HwFlowControl.val = e.code) ∧
      (∀ e : UART_Parity_t, (c.setParityMode e.code).ParityMode.val = e.code) ∧
      (∀ e : UART_BaudRate_t, (c.setBaudRate e.code).BaudRate.val = e.code) ∧
      (∀ e : UART_StopBits_t, (c.setStopBits e.code).StopBits.val = e.code) ∧
      (∀ e : UART_DataBits_t, (c.setWordLength e.code).WordLength.val = e.code)) ∧
    (Function.Injective (fun e : UART_HW_FlowControl_t =>
        (c.setHwFlowControl e.code).HwFlowControl) ∧
      Function.Injective (fun e : UART_Parity_t => (c.setParityMode e.code).ParityMode) ∧
      Function.Injective (fun e : UART_BaudRate_t => (c.setBaudRate e.code).BaudRate) ∧
      Function.Injective (fun e : UART_StopBits_t => (c.setStopBits e.code).StopBits) ∧
      Function.Injective (fun e : UART_DataBits_t => (c.setWordLength e.code).WordLength)) ∧
    UART_Config_t.fieldWidths = [2, 2, 2, 2, 1] ∧ UART_Config_t.fieldWidths.sum = 9 := by
  refine ⟨⟨?_, ?_, ?_, ?_, ?_⟩, ⟨?_, ?_, ?_, ?_, ?_⟩, rfl, rfl⟩
  · intro e; cases e <;> rfl
  · intro e; cases e <;> rfl
  · intro e; cases e <;> rfl
  · intro e; cases e <;> rfl
  · intro e; cases e <;> rfl
  · intro a b h; cases a <;> cases b <;> first
      | rfl
      | exact absurd (show toBits2 _ = toBits2 _ from h) (by decide)
  · intro a b h; cases a <;> cases b <;> first
      | rfl
      | exact absurd (show toBits2 _ = toBits2 _ from h) (by decide)
  · intro a b h; cases a <;> cases b <;> first
      | rfl
      | exact absurd (show toBits2 _ = toBits2 _ from h) (by decide)
  · intro a b h; cases a <;> cases b <;> first
      | rfl
      | exact absurd (show toBits2 _ = toBits2 _ from h) (by decide)
  · intro a b h; cases a <;> cases b <;> first
      | rfl
      | exact absurd (show toBits1 _ = toBits1 _ from h) (by decide)

/-- C7: assigning `v` to one field of a configuration `c` makes that field read back
`v` reduced to the width of the field and leaves the other four fields as they were
in `c`. -/
theorem config_fields_independent (c : UART_Config_t) (v : Nat) :
    ((c.setHwFlowControl v).HwFlowControl.val = v % 2 ^ 2 ∧
      (c.setHwFlowControl v).ParityMode = c.ParityMode ∧
      (c.setHwFlowControl v).BaudRate = c.BaudRate ∧
      (c.setHwFlowControl v).StopBits = c.StopBits ∧
      (c.setHwFlowControl v).WordLength = c.WordLength) ∧
    ((c.setParityMode v).ParityMode.val = v % 2 ^ 2 ∧
      (c.setParityMode v).HwFlowControl = c.HwFlowControl ∧
      (c.setParityMode v).BaudRate = c.BaudRate ∧
      (c.setParityMode v).StopBits = c.StopBits ∧
      (c.setParityMode v).WordLength = c.WordLength) ∧
    ((c.setBaudRate v).BaudRate.val = v % 2 ^ 2 ∧
      (c.setBaudRate v).HwFlowControl = c.HwFlowControl ∧
      (c.setBaudRate v).ParityMode = c.ParityMode ∧
      (c.setBaudRate v).StopBits = c.StopBits ∧
      (c.setBaudRate v).WordLength = c.WordLength) ∧
    ((c.setStopBits v).StopBits.val = v % 2 ^ 2 ∧
      (c.setStopBits v).HwFlowControl = c.HwFlowControl ∧
      (c.setStopBits v).ParityMode = c.ParityMode ∧
      (c.setStopBits v).BaudRate = c.BaudRate ∧
      (c.setStopBits v).WordLength = c.WordLength) ∧
    ((c.setWordLength v).WordLength.val = v % 2 ^ 1 ∧
      (c.setWordLength v).HwFlowControl = c.HwFlowControl ∧
      (c.setWordLength v).ParityMode = c.ParityMode ∧
      (c.setWordLength v).BaudRate = c.BaudRate ∧
      (c.setWordLength v).StopBits = c.StopBits) :=
  ⟨⟨rfl, rfl, rfl, rfl, rfl⟩, ⟨rfl, rfl, rfl, rfl, rfl⟩, ⟨rfl, rfl, rfl, rfl, rfl⟩,
    ⟨rfl, rfl, rfl, rfl, rfl⟩, ⟨rfl, rfl, rfl, rfl, rfl⟩⟩

/-- C8: `UART_HW_FLOW_CONTROL_NONE` is 0, the values of `UART_HW_FLOW_CONTROL_RTS` and
`UART_HW_FLOW_CONTROL_CTS` are the distinct single bits 1 and 2 with no bit in common,
`UART_HW_FLOW_CONTROL_RTS_CTS` is their bitwise OR, and a mode is determined by its
pair of RTS and CTS enables. -/
theorem flow_control_two_enable_bits :
    UART_HW_FLOW_CONTROL_NONE.code = 0 ∧
      UART_HW_FLOW_CONTROL_RTS.code = 2 ^ 0 ∧ UART_HW_FLOW_CONTROL_CTS.code = 2 ^ 1 ∧
      UART_HW_FLOW_CONTROL_RTS.code ≠ UART_HW_FLOW_CONTROL_CTS.code ∧
      UART_HW_FLOW_CONTROL_RTS.code &&& UART_HW_FLOW_CONTROL_CTS.code = 0 ∧
      UART_HW_FLOW_CONTROL_RTS_CTS.code =
        UART_HW_FLOW_CONTROL_RTS.code ||| UART_HW_FLOW_CONTROL_CTS.code ∧
      UART_HW_FLOW_CONTROL_NONE.enables = (false, false) ∧
      UART_HW_FLOW_CONTROL_RTS.enables = (true, false) ∧
      UART_HW_FLOW_CONTROL_CTS.enables = (false, true) ∧
      UART_HW_FLOW_CONTROL_RTS_CTS.enables = (true, true) ∧
      Function.Injective UART_HW_FlowControl_t.enables := by
  refine ⟨rfl, rfl, rfl, by decide, by decide, by decide, by decide, by decide, by decide,
    by decide, ?_⟩
  intro a b h
  cases a <;> cases b <;> first | rfl | exact absurd h (by decide)

/-- C10: the enumerations of `HwFlowControl`, `BaudRate`, `StopBits` and `WordLength`
are in bijection with the full range of their bit-fields; `ParityMode` is the only
field with a storable pattern that is not enumerated, that pattern is 3, and a
configuration is outside the closed enumeration domains exactly when its
`ParityMode` field is 3. -/
theorem config_only_parity_three_outside :
    (Function.Bijective (fun e : UART_HW_FlowControl_t => toBits2 e.code) ∧
      Function.Bijective (fun e : UART_BaudRate_t => toBits2 e.code) ∧
      Function.Bijective (fun e : UART_StopBits_t => toBits2 e.code) ∧
      Function.Bijective (fun e : UART_DataBits_t => toBits1 e.code)) ∧
    (∀ c : UART_Config_t, c.HwFlowControlEnumerated ∧ c.BaudRateEnumerated ∧
      c.StopBitsEnumerated ∧ c.WordLengthEnumerated) ∧
    (Function.Injective (fun e : UART_Parity_t => toBits2 e.code) ∧
      ∀ v : Fin 4, (¬ ∃ e : UART_Parity_t, e.code = v.val) ↔ v = 3) ∧
    (∀ c : UART_Config_t, ¬ c.ParityModeEnumerated ↔ c.ParityMode = 3) ∧
    (∀ c : UART_Config_t, ¬ c.Valid ↔ c.ParityMode = 3) := by
  refine ⟨⟨by decide, by decide, by decide, by decide⟩, ?_, ⟨by decide, by decide⟩, ?_, ?_⟩
  · intro c
    exact ⟨(by decide : ∀ v : Fin 4, ∃ e : UART_HW_FlowControl_t, e.code = v.val) c.HwFlowControl,
      (by decide : ∀ v : Fin 4, ∃ e : UART_BaudRate_t, e.code = v.val) c.BaudRate,
      (by decide : ∀ v : Fin 4, ∃ e : UART_StopBits_t, e.code = v.val) c.StopBits,
      (by decide : ∀ v : Fin 2, ∃ e : UART_DataBits_t, e.code = v.val) c.WordLength⟩
  · intro c
    exact (by decide : ∀ v : Fin 4, (¬ ∃ e : UART_Parity_t, e.code = v.val) ↔ v = 3) c.ParityMode
  · intro c
    rw [valid_iff_parity_ne_three, not_not]

/-! ## The word-length policy -/

theorem effectiveWordLength_literal {L : USART_Layout} (hA : L.autoExtend = false)
    (p : UART_Parity_t) (w : UART_DataBits_t) : effectiveWordLength L p w = w := by
  simp [effectiveWordLength, hA]

theorem effectiveWordLength_parity_none (L : USART_Layout) (w : UART_DataBits_t) :
    effectiveWordLength L UART_PARITY_NONE w = w := by
  simp [effectiveWordLength]

theorem effectiveWordLength_extended {L : USART_Layout} (hA : L.autoExtend = true)
    {p : UART_Parity_t} (hp : p ≠ UART_PARITY_NONE) (w : UART_DataBits_t) :
    effectiveWordLength L p w = UART_WORD_LENGTH_9BIT := by
  simp [effectiveWordLength, hA, hp]

theorem sameOutside_trans {n x y z : Nat} (h1 : sameOutside n x y) (h2 : sameOutside n y z) :
    sameOutside n x z :=
  Eq.trans h1 h2

theorem sameOutside_or_left {n x y : Nat} (m : Nat) (h : sameOutside n x y) :
    sameOutside (n ||| m) x y := by
  unfold sameOutside at h ⊢
  apply Nat.eq_of_testBit_eq; intro i
  have e := congrArg (fun z => Nat.testBit z i) h
  simp only [clearMask, Nat.testBit_and, Nat.testBit_xor] at e
  simp only [clearMask, Nat.testBit_and, Nat.testBit_or, Nat.testBit_xor]
  revert e
  cases x.testBit i <;> cases y.testBit i <;> cases n.testBit i <;> cases m.testBit i <;> simp

theorem sameOutside_or_right {n x y : Nat} (m : Nat) (h : sameOutside n x y) :
    sameOutside (m ||| n) x y := by
  rw [Nat.lor_comm]
  exact sameOutside_or_left m h

theorem readWordLength_of_and {L : USART_Layout} {cr : Nat} {w : UART_DataBits_t}
    (h : cr &&& maskWordLength L = encWordLength L w) : readWordLength L cr = some w := by
  show (List.find? _ _) = _
  simp only [h]
  exact find?_eq_some_of_injective (encWordLength L) (encWordLength_injective L) w _
    (by cases w <;> simp)

/-! ## The fields of the baud-rate register -/

theorem div_mul_add_of_lt {c r : Nat} (q : Nat) (hr : r < c) : (q * c + r) / c = q := by
  have hc : 0 < c := Nat.lt_of_le_of_lt (Nat.zero_le r) hr
  rw [Nat.add_comm, Nat.add_mul_div_right _ _ hc, Nat.div_eq_of_lt hr, Nat.zero_add]

theorem mod_mul_add_of_lt {c r : Nat} (q : Nat) (hr : r < c) : (q * c + r) % c = r := by
  rw [Nat.add_comm, Nat.add_mul_mod_self_right, Nat.mod_eq_of_lt hr]

theorem divMantissa_programmedDivisor (L : USART_Layout) (f baud : Nat) :
    divMantissa L.fracBits (programmedDivisor L f baud) =
      baudDivisor L.fracBits f baud / 2 ^ L.fracBits % 2 ^ L.mantBits := by
  unfold programmedDivisor divMantissa divFraction
  exact div_mul_add_of_lt _ (Nat.mod_lt _ (Nat.pos_pow_of_pos _ (by decide)))

theorem divFraction_programmedDivisor (L : USART_Layout) (f baud : Nat) :
    divFraction L.fracBits (programmedDivisor L f baud) =
      baudDivisor L.fracBits f baud % 2 ^ L.fracBits := by
  unfold programmedDivisor divMantissa divFraction
  exact mod_mul_add_of_lt _ (Nat.mod_lt _ (Nat.pos_pow_of_pos _ (by decide)))

theorem programmedDivisor_of_lt (L : USART_Layout) (f baud : Nat)
    (h : baudDivisor L.fracBits f baud < 2 ^ (L.mantBits + L.fracBits)) :
    programmedDivisor L f baud = baudDivisor L.fracBits f baud := by
  unfold programmedDivisor divMantissa divFraction
  have h1 : baudDivisor L.fracBits f baud / 2 ^ L.fracBits < 2 ^ L.mantBits := by
    apply Nat.div_lt_of_lt_mul
    rw [← Nat.pow_add, Nat.add_comm]
    exact h
  rw [Nat.mod_eq_of_lt h1]
  exact Nat.div_add_mod' _ _

theorem baudDivisor_le_9600 (k f : Nat) (b : UART_BaudRate_t) :
    baudDivisor k f b.baud ≤ baudDivisor k f 9600 := by
  simp only [baudDivisor]
  generalize f * 2 ^ k = N
  cases b <;> simp only [UART_BaudRate_t.baud] <;> omega

theorem programmedDivisor_injective (L : USART_Layout) (f : Nat) (hf : 16 * 115200 ≤ f)
    (hfit : baudDivisor L.fracBits f 9600 < 2 ^ (L.mantBits + L.fracBits)) :
    Function.Injective (fun b : UART_BaudRate_t => programmedDivisor L f b.baud) := by
  intro a b h
  simp only at h
  rw [programmedDivisor_of_lt L f a.baud
      (Nat.lt_of_le_of_lt (baudDivisor_le_9600 L.fracBits f a) hfit),
    programmedDivisor_of_lt L f b.baud
      (Nat.lt_of_le_of_lt (baudDivisor_le_9600 L.fracBits f b) hfit)] at h
  exact baudDivisor_injective L.fracBits f hf h

/-! ## Initialisation: claims C1 and C2 -/

/-- C3: for every register block and every configuration whose fields all hold
enumerated values, `UART_voidInit` returns a block, and calling it again on that
block with the same configuration returns the same block. -/
theorem UART_voidInit_idempotent (L : USART_Layout) (f : Nat) (blk : USART_RegDef_t)
    (c : UART_Config_t) (hc : c.Valid) :
    ∃ blk1, UART_voidInit L f blk c = some blk1 ∧ UART_voidInit L f blk1 c = some blk1 := by
  obtain ⟨⟨h, p, b, s, w⟩, rfl⟩ := (valid_iff_exists_toConfig c).mp hc
  refine ⟨_, UART_voidInit_mkConfig L f blk h p b s w, ?_⟩
  show UART_voidInit L f _ (mkConfig h p b s w) = _
  rw [UART_voidInit_mkConfig]
  simp only [initControl_idem]

/-- Witness of `UART_voidInit_idempotent`: the STM32F10x layout, a clock of 8 MHz, a
register block with stale control bits, and the configuration with every field 1. -/
theorem UART_voidInit_idempotent_witness :
    (UART_Config_t.mk 1 1 1 1 1).Valid ∧
      ∃ blk1, UART_voidInit stm32Layout 8000000 ⟨0, 0, 0, 0xFFFF⟩ (UART_Config_t.mk 1 1 1 1 1)
          = some blk1 ∧
        UART_voidInit stm32Layout 8000000 blk1 (UART_Config_t.mk 1 1 1 1 1) = some blk1 :=
  ⟨by decide, UART_voidInit_idempotent stm32Layout 8000000 ⟨0, 0, 0, 0xFFFF⟩
    (UART_Config_t.mk 1 1 1 1 1) (by decide)⟩

/-- C9: the value `UART_voidSendData` receives for an integer argument `w` is
`w mod 2^8`, a value in 0..255; when the transmit-data-register-empty flag is set at
some poll within the fuel, the call returns with that value in the data register, and
after an initialisation with 9-bit word length and even parity the argument 0x1FF puts
0xFF in the data register; `UART_u8ReceiveData` returns only values in 0..255, and it
returns one when the receive-data-register-not-empty flag is set at some poll within
the fuel. -/
theorem UART_payload_is_8bit (L : USART_Layout) (sr : Nat → Nat) (fuel : Nat)
    (blk : USART_RegDef_t) (w : Int) :
    ((u8 w : Int) = w % 2 ^ 8 ∧ u8 w ≤ 255 ∧ u8 0x1FF = 0xFF) ∧
    (∀ kt, kt < fuel → (sr kt).testBit L.TXE = true →
      (∃ blk1, UART_voidSendData L sr fuel blk w = some blk1 ∧
        (blk1.DR : Int) = w % 2 ^ 8 ∧ blk1.DR ≤ 255) ∧
      (∀ (f : Nat) (h : UART_HW_FlowControl_t) (b : UART_BaudRate_t) (s : UART_StopBits_t),
        ∃ blk1, UART_voidInit L f blk (mkConfig h UART_PARITY_EVEN b s UART_WORD_LENGTH_9BIT)
            = some blk1 ∧
          ∃ blk2, UART_voidSendData L sr fuel blk1 0x1FF = some blk2 ∧ blk2.DR = 0xFF)) ∧
    (∀ v, UART_u8ReceiveData L sr fuel blk = some v → v ≤ 255) ∧
    (∀ kr, kr < fuel → (sr kr).testBit L.RXNE = true →
      ∃ v, UART_u8ReceiveData L sr fuel blk = some v ∧ v ≤ 255 ∧ v = blk.DR % 2 ^ 8) := by
  have hw := u8_lt w
  have hd := u8_lt (blk.DR : Int)
  refine ⟨⟨u8_cast w, by omega, by decide⟩, ?_, ?_, ?_⟩
  · intro kt hkt htx
    obtain ⟨jt, hjt, _, _⟩ := waitFlag_of_flag (fun n => (sr n).testBit L.TXE) fuel 0 kt
      (Nat.zero_le _) (by omega) htx
    refine ⟨⟨_, UART_voidSendData_of_wait L sr fuel blk w hjt, u8_cast w, ?_⟩, ?_⟩
    · show u8 w ≤ 255
      omega
    · intro f h b s
      refine ⟨_, UART_voidInit_mkConfig L f blk h UART_PARITY_EVEN b s UART_WORD_LENGTH_9BIT,
        _, UART_voidSendData_of_wait L sr fuel _ 0x1FF hjt, ?_⟩
      show u8 0x1FF = 0xFF
      decide
  · intro v hv
    unfold UART_u8ReceiveData at hv
    split at hv
    · cases hv
    · cases hv
      omega
  · intro kr hkr hrx
    obtain ⟨jr, hjr, _, _⟩ := waitFlag_of_flag (fun n => (sr n).testBit L.RXNE) fuel 0 kr
      (Nat.zero_le _) (by omega) hrx
    refine ⟨_, UART_u8ReceiveData_of_wait L sr fuel blk hjr, by omega, ?_⟩
    show u8 (blk.DR : Int) = blk.DR % 2 ^ 8
    unfold u8
    omega

/-- Witness of `UART_payload_is_8bit`: the STM32F10x layout, a status register that
shows both flags from the third poll on, five polls of fuel, a data register holding
the 9-bit value 0x1FF, and the argument 0x1FF. -/
theorem UART_payload_is_8bit_witness :
    (2 < 5 ∧ ((fun n => if n < 2 then 0 else 0xA0) 2).testBit stm32Layout.TXE = true ∧
      ((fun n => if n < 2 then 0 else 0xA0) 2).testBit stm32Layout.RXNE = true) ∧
    (∃ blk1, UART_voidSendData stm32Layout (fun n => if n < 2 then 0 else 0xA0) 5
        ⟨0, 0x1FF, 0, 0⟩ 0x1FF = some blk1 ∧ (blk1.DR : Int) = 0x1FF % 2 ^ 8 ∧ blk1.DR ≤ 255) ∧
    (∃ v, UART_u8ReceiveData stm32Layout (fun n => if n < 2 then 0 else 0xA0) 5
        ⟨0, 0x1FF, 0, 0⟩ = some v ∧ v ≤ 255 ∧ v = 0x1FF % 2 ^ 8) :=
  ⟨⟨by decide, by decide, by decide⟩,
    ((UART_payload_is_8bit stm32Layout (fun n => if n < 2 then 0 else 0xA0) 5
      ⟨0, 0x1FF, 0, 0⟩ 0x1FF).2.1 2 (by decide) (by decide)).1,
    (UART_payload_is_8bit stm32Layout (fun n => if n < 2 then 0 else 0xA0) 5
      ⟨0, 0x1FF, 0, 0⟩ 0x1FF).2.2.2 2 (by decide) (by decide)⟩

end UART
